import Mathlib

/-!
Verification development for the regression engine of the CVC repository
(`performRegression` and its helpers in the regression service).

The engine runs on JavaScript numbers.  We model them exactly with `JsNum`:
a rational value, `NaN`, or one of the two infinities, with JavaScript's
arithmetic and comparison semantics (`NaN` is absorbing, every comparison
with `NaN` is false).  Floating-point rounding is idealised away: `val q`
carries an exact rational.  The two transcendental primitives used by the
source, `Math.log`/`Math.log1p` and `Math.sqrt`, cannot be computed exactly
on rationals, so they are passed in as abstract parameters `mlog`
(`mlog false q` models `Math.log q`, `mlog true q` models `Math.log1p q`,
used by the source only on arguments inside the respective domains) and
`msqrt` (`msqrt q` models `Math.sqrt q` for `q ≥ 0`); all general theorems
hold for every choice of these parameters.  `Math.random` is modelled by an
explicit stream `rng : ℕ → ℕ → ℕ` of draws (iteration, position), reduced
modulo the row count where the source computes `Math.floor(Math.random()*n)`.
-/

/-- JavaScript number: `NaN`, `Infinity`, `-Infinity`, or a finite value
    (idealised as an exact rational). -/
inductive JsNum where
  | nan : JsNum
  | inf : JsNum
  | ninf : JsNum
  | val : ℚ → JsNum
deriving DecidableEq

/-- JavaScript unary minus. -/
def jneg : JsNum → JsNum
  | .nan => .nan
  | .inf => .ninf
  | .ninf => .inf
  | .val q => .val (-q)

/-- JavaScript addition. -/
def jadd : JsNum → JsNum → JsNum
  | .nan, _ => .nan
  | _, .nan => .nan
  | .inf, .ninf => .nan
  | .ninf, .inf => .nan
  | .inf, _ => .inf
  | _, .inf => .inf
  | .ninf, _ => .ninf
  | _, .ninf => .ninf
  | .val a, .val b => .val (a + b)

/-- JavaScript subtraction (`a - b = a + (-b)`, matching JS semantics). -/
def jsub (a b : JsNum) : JsNum := jadd a (jneg b)

/-- JavaScript multiplication (`Infinity * 0 = NaN`). -/
def jmul : JsNum → JsNum → JsNum
  | .nan, _ => .nan
  | _, .nan => .nan
  | .inf, .inf => .inf
  | .inf, .ninf => .ninf
  | .ninf, .inf => .ninf
  | .ninf, .ninf => .inf
  | .inf, .val q => if q = 0 then .nan else if 0 < q then .inf else .ninf
  | .val q, .inf => if q = 0 then .nan else if 0 < q then .inf else .ninf
  | .ninf, .val q => if q = 0 then .nan else if 0 < q then .ninf else .inf
  | .val q, .ninf => if q = 0 then .nan else if 0 < q then .ninf else .inf
  | .val a, .val b => .val (a * b)

/-- JavaScript division (`x/0` is `±Infinity` for `x ≠ 0` and `NaN` for
    `0/0`; signed zeros are not modelled, `0` behaves as `+0`). -/
def jdiv : JsNum → JsNum → JsNum
  | .nan, _ => .nan
  | _, .nan => .nan
  | .inf, .inf => .nan
  | .inf, .ninf => .nan
  | .ninf, .inf => .nan
  | .ninf, .ninf => .nan
  | .inf, .val q => if 0 ≤ q then .inf else .ninf
  | .ninf, .val q => if 0 ≤ q then .ninf else .inf
  | .val _, .inf => .val 0
  | .val _, .ninf => .val 0
  | .val a, .val b =>
      if b = 0 then (if a = 0 then .nan else if 0 < a then .inf else .ninf)
      else .val (a / b)

/-- JavaScript `Math.abs`. -/
def jabs : JsNum → JsNum
  | .nan => .nan
  | .inf => .inf
  | .ninf => .inf
  | .val q => .val |q|

/-- JavaScript `<` (false whenever an operand is `NaN`). -/
def jltB : JsNum → JsNum → Bool
  | .nan, _ => false
  | _, .nan => false
  | .inf, _ => false
  | .ninf, .ninf => false
  | .ninf, _ => true
  | .val _, .inf => true
  | .val _, .ninf => false
  | .val a, .val b => decide (a < b)

/-- JavaScript `<=` (false whenever an operand is `NaN`). -/
def jleB : JsNum → JsNum → Bool
  | .nan, _ => false
  | _, .nan => false
  | .ninf, _ => true
  | _, .inf => true
  | .inf, _ => false
  | .val _, .ninf => false
  | .val a, .val b => decide (a ≤ b)

/-- JavaScript `>=`. -/
def jgeB (a b : JsNum) : Bool := jleB b a

/-- JavaScript `isNaN`. -/
def jIsNaN (v : JsNum) : Bool := v == .nan

/-- JavaScript `Math.min` of two arguments. -/
def jmin2 (a b : JsNum) : JsNum :=
  if a = .nan || b = .nan then .nan else if jleB a b then a else b

/-- JavaScript `Math.max` of two arguments. -/
def jmax2 (a b : JsNum) : JsNum :=
  if a = .nan || b = .nan then .nan else if jleB b a then a else b

/-- `Math.min(...l)` — spread call, starting from `Infinity`. -/
def jsMinList (l : List JsNum) : JsNum := l.foldl jmin2 .inf

/-- `Math.max(...l)` — spread call, starting from `-Infinity`. -/
def jsMaxList (l : List JsNum) : JsNum := l.foldl jmax2 .ninf

/-- Summation as done by `reduce((a, b) => a + b, 0)` / `sum += x` loops. -/
def jsumL (l : List JsNum) : JsNum := l.foldl jadd (.val 0)

/-- `x * x`, modelling the source's `Math.pow(x, 2)`. -/
def jsq (x : JsNum) : JsNum := jmul x x

/-- `Math.sqrt` lifted to `JsNum` (`msqrt` abstracts exact square root on
    nonnegative rationals). -/
def jsqrt (msqrt : ℚ → ℚ) : JsNum → JsNum
  | .nan => .nan
  | .inf => .inf
  | .ninf => .nan
  | .val q => if q < 0 then .nan else .val (msqrt q)

/-- Total ordering used to model `Array.prototype.sort((a, b) => a - b)`.
    The comparator's behaviour on `NaN` is implementation-defined in JS; the
    model places `NaN` first, then `-Infinity`, finite values, `Infinity`. -/
def jsortLe : JsNum → JsNum → Bool
  | .nan, _ => true
  | _, .nan => false
  | .ninf, _ => true
  | _, .ninf => false
  | _, .inf => true
  | .inf, _ => false
  | .val a, .val b => decide (a ≤ b)

/-- Numeric ascending sort, modelling `values.sort((a, b) => a - b)`. -/
def sortJs (l : List JsNum) : List JsNum :=
  l.insertionSort (fun a b => jsortLe a b = true)

/-! ## Cell values and rows -/

/-- Value of a spreadsheet cell as seen by the engine: the `DataRow` type is
    `string | number | null`, and a missing key reads as `undefined`. -/
inductive Value where
  | num : ℚ → Value
  | str : String → Value
  | null : Value
  | undef : Value
deriving DecidableEq

/-- A data row maps column names to cell values (`row[name]`, with missing
    keys reading as `undef`). -/
def Row := String → Value

/-- Fold a digit list into a natural number. -/
def digitsVal (l : List Char) : ℕ :=
  l.foldl (fun a c => 10 * a + (c.toNat - 48)) 0

/-- Parse an unsigned decimal literal `digits [ "." digits ]` (at least one
    digit overall), the decimal core of JavaScript's string-to-number
    grammar.  Exponents and hex literals are not modelled. -/
def parseDecCore (cs : List Char) : Option ℚ :=
  let intPart := cs.takeWhile Char.isDigit
  let rest := cs.dropWhile Char.isDigit
  match rest with
  | [] => if intPart.isEmpty then none else some (digitsVal intPart)
  | '.' :: frac =>
      if frac.all Char.isDigit && !(intPart.isEmpty && frac.isEmpty) then
        some ((digitsVal intPart : ℚ) + (digitsVal frac : ℚ) / 10 ^ frac.length)
      else none
  | _ => none

/-- JavaScript `Number(string)`: trim, empty ↦ `0`, optional sign, then a
    decimal literal or the `Infinity` literal; anything else is `NaN`. -/
def jsStrToNumber (s : String) : JsNum :=
  let t := s.trim
  if t = "" then .val 0
  else
    let cs := t.toList
    let signNeg : Bool := cs.headD ' ' = '-'
    let rest := if cs.headD ' ' = '-' || cs.headD ' ' = '+' then cs.tail else cs
    if rest = "Infinity".toList then (if signNeg then .ninf else .inf)
    else
      match parseDecCore rest with
      | some q => .val (if signNeg then -q else q)
      | none => .nan

/-- JavaScript `Number(v)` for a cell value (`Number(null) = 0`,
    `Number(undefined) = NaN`). -/
def toNumber : Value → JsNum
  | .num q => .val q
  | .str s => jsStrToNumber s
  | .null => .val 0
  | .undef => .nan

/-- Digits of a natural number, most significant first (fuel-recursive so
    that it reduces in the kernel). -/
def natDigitsAux : ℕ → ℕ → List Char
  | 0, _ => []
  | f + 1, n =>
      if n < 10 then [Char.ofNat (48 + n)]
      else natDigitsAux f (n / 10) ++ [Char.ofNat (48 + n % 10)]

/-- Decimal rendering of a natural number. -/
def natToStr (n : ℕ) : String := ⟨natDigitsAux (n + 1) n⟩

/-- Decimal rendering of an integer. -/
def intToStr (i : ℤ) : String :=
  if i < 0 then "-" ++ natToStr i.natAbs else natToStr i.natAbs

/-- Rendering of a rational, used to model JavaScript `String(number)`.
    Integers render exactly as JS does; a non-integer rational renders as
    `num/den` (an idealisation — JS prints a decimal expansion; no claim
    depends on the rendering of non-integer numbers). -/
def ratToStr (q : ℚ) : String :=
  if q.den = 1 then intToStr q.num else intToStr q.num ++ "/" ++ natToStr q.den

/-- JavaScript `String(v)` for a cell value. -/
def toStr : Value → String
  | .num q => ratToStr q
  | .str s => s
  | .null => "null"
  | .undef => "undefined"

/-! ## Matrix kernel (transpose, multiply, Gauss–Jordan inverse)

The source stores matrices as `number[][]`.  The kernel is modelled on
total functions `ℕ → ℕ → JsNum` with explicit dimensions; out-of-range
reads of a stored list give `undefined`, whose arithmetic is `NaN`, which
is what `matOfLists` produces via its `.nan` default. -/

/-- Dense matrix as a total function; only the declared dimensions are
    meaningful. -/
def Mat := ℕ → ℕ → JsNum

/-- View a `number[][]` value as a `Mat` (out-of-range entries read as
    `undefined`, i.e. arithmetic `NaN`). -/
def matOfLists (X : List (List JsNum)) : Mat :=
  fun r c => (X.getD r []).getD c .nan

/-- Source `transpose`. -/
def transposeF (A : Mat) : Mat := fun r c => A c r

/-- Source `multiply`: `result[i][j] = Σ_{t < inner} m1[i][t] * m2[t][j]`,
    accumulated left to right from `0`. -/
def matMul (inner : ℕ) (A B : Mat) : Mat :=
  fun r c => jsumL ((List.range inner).map fun t => jmul (A r t) (B t c))

/-- Pivot threshold `1e-10` of the source's Gauss–Jordan elimination. -/
def eps10 : ℚ := 1 / 10 ^ 10

/-- Tolerance `1e-9` used by the pre-fit safety checks and the
    variance/σ filters. -/
def eps9 : ℚ := 1 / 10 ^ 9

/-- Swap rows `i` and `j` of a matrix. -/
def rowSwap (A : Mat) (i j : ℕ) : Mat :=
  fun r c => if r = i then A j c else if r = j then A i c else A r c

/-- Pivot selection of the source's Gauss–Jordan loop: when
    `|matrix[i][i]| < 1e-10`, search rows below `i` for the first entry with
    `|matrix[t][i]| > 1e-10` (the `swapped` flag; `none` models the
    singular-matrix throw), otherwise keep row `i`. -/
def gjPivotChoice (sz i : ℕ) (m : Mat) : Option ℕ :=
  if jltB (jabs (m i i)) (.val eps10) then
    (List.range sz).find? fun t => decide (i < t) && jltB (.val eps10) (jabs (m t i))
  else some i

/-- Scale row `i` of a matrix by dividing through the pivot. -/
def gjScale (i : ℕ) (piv : JsNum) (m : Mat) : Mat :=
  fun r c => if r = i then jdiv (m r c) piv else m r c

/-- Subtract `factor × row i` from every row `r ≠ i` of `other`, where
    `factor = mScaled[r][i]` is read from the scaled work matrix — the
    source's elimination inner loop, applied to the work matrix
    (`other = mScaled`) and to the identity (`other = idScaled`). -/
def gjReduce (i : ℕ) (mScaled other : Mat) : Mat :=
  fun r c =>
    if r = i then other r c
    else jsub (other r c) (jmul (mScaled r i) (other i c))

/-- The in-place body of one Gauss–Jordan column step after pivot row `t`
    has been chosen: swap rows `i` and `t` in both matrices, scale row `i`
    of both by the pivot, then eliminate every other row of both. -/
def gjElim (i t : ℕ) (p : Mat × Mat) : Mat × Mat :=
  let m1 := rowSwap p.1 i t
  let id1 := rowSwap p.2 i t
  let m2 := gjScale i (m1 i i) m1
  let id2 := gjScale i (m1 i i) id1
  (gjReduce i m2 m2, gjReduce i m2 id2)

/-- One column step of the source's Gauss–Jordan loop: pivot selection with
    partial pivoting, then scaling and elimination applied to both the work
    matrix and the accumulated identity. -/
def gjStep (sz i : ℕ) (p : Mat × Mat) : Option (Mat × Mat) :=
  (gjPivotChoice sz i p.1).map fun t => gjElim i t p

/-- The Gauss–Jordan column loop, structurally recursive on fuel so that it
    reduces in the kernel; `gjLoop sz f i p` processes columns `i, i+1, …`
    while `i < sz`, with `f ≥ sz - i`. -/
def gjLoop (sz : ℕ) : ℕ → ℕ → Mat × Mat → Option (Mat × Mat)
  | 0, _, p => some p
  | f + 1, i, p =>
      if i < sz then (gjStep sz i p).bind (gjLoop sz f (i + 1)) else some p

/-- Source `inverse`: Gauss–Jordan elimination of an `sz × sz` matrix
    against the identity; `none` models the `Singular Matrix` throw.  The
    source copies its argument before mutating, so the functional reading
    is exact. -/
def gjInverse (sz : ℕ) (A : Mat) : Option Mat :=
  (gjLoop sz sz 0 (A, fun r c => if r = c then .val 1 else .val 0)).map Prod.snd

/-- Source `solveOLS`: `β = (XᵗX)⁻¹ Xᵗy` via the kernel's transpose,
    multiply and Gauss–Jordan inverse; `none` models the caught throw. -/
def solveOLS (X : List (List JsNum)) (Y : List JsNum) : Option (List JsNum) :=
  let n := X.length
  let kk := (X.headD []).length
  let Xf := matOfLists X
  let Yf : Mat := fun i _ => Y.getD i .nan
  let XT := transposeF Xf
  let XTX := matMul n XT Xf
  match gjInverse kk XTX with
  | none => none
  | some XTXinv =>
      let XTY := matMul n XT Yf
      let Beta := matMul kk XTXinv XTY
      some ((List.range kk).map fun j => Beta j 0)

/-! ## Configuration and result types (from `types.ts`) -/

/-- Variable kind. -/
inductive VarType where
  | numeric : VarType
  | categorical : VarType
deriving DecidableEq

/-- Variable role (carried by `VariableConfig`; `performRegression` does not
    read it). -/
inductive VarRole where
  | target : VarRole
  | feature : VarRole
  | ignore : VarRole
deriving DecidableEq

/-- Source `VariableConfig`. -/
structure VariableConfig where
  name : String
  type : VarType
  role : VarRole
  logTransform : Bool
  logPlusOne : Bool
deriving DecidableEq

instance : Inhabited VariableConfig := ⟨⟨"", .numeric, .feature, false, false⟩⟩

/-- Source `ModelCoefficient` (the optional `stdError`/`tStat`/CI fields are
    always set by `performRegression`). -/
structure ModelCoefficient where
  name : String
  value : JsNum
  stdError : JsNum
  tStat : JsNum
  confidenceInterval : JsNum × JsNum
  vif : Option JsNum
deriving DecidableEq

instance : Inhabited ModelCoefficient :=
  ⟨⟨"", .nan, .nan, .nan, (.nan, .nan), none⟩⟩

/-- One entry of `RegressionResult.predictions`. -/
structure PredictionEntry where
  actual : JsNum
  predicted : JsNum
  residual : JsNum
  categories : List (String × String)
deriving DecidableEq

/-- Source `RobustnessMetrics`. -/
structure RobustnessMetrics where
  name : String
  original : JsNum
  bootstrapMean : JsNum
  bootstrapMedian : JsNum
  bootstrapMin : JsNum
  bootstrapMax : JsNum
  bootstrapLowCI : JsNum
  bootstrapHighCI : JsNum
deriving DecidableEq

/-- The `correlationMatrix` field of `RegressionResult`. -/
structure CorrOut where
  names : List String
  matrix : List (List JsNum)
deriving DecidableEq

/-- Source `RegressionResult`. -/
structure RegressionResult where
  coefficients : List ModelCoefficient
  r2 : JsNum
  adjustedR2 : JsNum
  rmse : JsNum
  observations : ℕ
  predictions : List PredictionEntry
  equation : String
  correlationMatrix : CorrOut
  robustness : List RobustnessMetrics
deriving DecidableEq

instance : Inhabited RegressionResult :=
  ⟨⟨[], .nan, .nan, .nan, 0, [], "", ⟨[], []⟩, []⟩⟩

/-- The typed errors thrown by `performRegression` (the source throws
    `Error` values with descriptive messages; each constructor stands for
    one throw site and carries the variable names the message interpolates). -/
inductive RegError where
  | emptyDataset : RegError
  | constantVariable : String → RegError
  | duplicateVariable : String → String → RegError
  | insufficientSample : ℕ → ℕ → RegError
  | singularMatrix : RegError
  | singularSE : RegError
deriving DecidableEq

/-! ## Preprocessing, safety checks, design matrix -/

/-- Source `getLogVal`, lifted to `JsNum`:
    `plusOne ? Math.log1p(val) : Math.log(val)`. -/
def getLogVal (mlog : Bool → ℚ → ℚ) (plusOne : Bool) : JsNum → JsNum
  | .nan => .nan
  | .inf => .inf
  | .ninf => .nan
  | .val q =>
      if plusOne then
        if q < -1 then .nan else if q = -1 then .ninf else .val (mlog true q)
      else
        if q < 0 then .nan else if q = 0 then .ninf else .val (mlog false q)

/-- Per-feature validity inside the preprocessing filter: the value must be
    present (not `null`/`undefined`/`''`), and a numeric feature with a log
    transform must parse to a non-`NaN` number satisfying the domain
    bound. -/
def featValid (row : Row) (f : VariableConfig) : Bool :=
  let v := row f.name
  if v = .null || v = .undef || v = .str "" then false
  else if f.type == .numeric && f.logTransform then
    let numVal := toNumber v
    if jIsNaN numVal then false
    else if f.logPlusOne then !(jleB numVal (.val (-1)))
    else !(jleB numVal (.val 0))
  else true

/-- The preprocessing row filter, target part: the target must not be `NaN`
    and must satisfy the log-transform domain bound; each feature must pass
    `featValid`. -/
def rowValid (targetVar : String) (tlog tplus : Bool)
    (featureVars : List VariableConfig) (row : Row) : Bool :=
  let yVal := toNumber (row targetVar)
  if jIsNaN yVal then false
  else if tlog && (if tplus then jleB yVal (.val (-1)) else jleB yVal (.val 0)) then false
  else featureVars.all (featValid row)

/-- `cleanData`: the rows surviving preprocessing, in original order. -/
def cleanOf (targetVar : String) (tlog tplus : Bool)
    (featureVars : List VariableConfig) (data : List Row) : List Row :=
  data.filter (rowValid targetVar tlog tplus featureVars)

/-- `Number` values of one column over the clean rows. -/
def numColVals (clean : List Row) (name : String) : List JsNum :=
  clean.map fun r => toNumber (r name)

/-- The condition of safety check A for one feature: numeric, and the
    clean-row `Number` values satisfy `Math.abs(max - min) < 1e-9`. -/
def checkACond (clean : List Row) (f : VariableConfig) : Bool :=
  f.type == .numeric &&
    (let vals := numColVals clean f.name
     jltB (jabs (jsub (jsMaxList vals) (jsMinList vals))) (.val eps9))

/-- Safety check A: the first feature satisfying `checkACond` (`forEach`
    throws at the first offender). -/
def checkA (featureVars : List VariableConfig) (clean : List Row) : Option String :=
  (featureVars.find? (checkACond clean)).map (·.name)

/-- Row-wise identity within `1e-9` of two numeric columns (check B's
    `vals1.every((val, idx) => Math.abs(val - vals2[idx]) < 1e-9)`). -/
def pairIdentical (clean : List Row) (n1 n2 : String) : Bool :=
  ((numColVals clean n1).zip (numColVals clean n2)).all fun ab =>
    jltB (jabs (jsub ab.1 ab.2)) (.val eps9)

/-- Index pairs `i < j` in the order visited by check B's nested loops. -/
def dupPairs (len : ℕ) : List (ℕ × ℕ) :=
  (List.range len).flatMap fun i =>
    ((List.range len).filter fun j => i < j).map fun j => (i, j)

/-- The condition of safety check B for one index pair: both features
    numeric and row-wise identical within tolerance. -/
def checkBCond (featureVars : List VariableConfig) (clean : List Row)
    (ij : ℕ × ℕ) : Bool :=
  let f1 := featureVars.getD ij.1 default
  let f2 := featureVars.getD ij.2 default
  f1.type == .numeric && f2.type == .numeric && pairIdentical clean f1.name f2.name

/-- Safety check B over the double-loop pair order. -/
def checkB (featureVars : List VariableConfig) (clean : List Row) :
    Option (String × String) :=
  (dupPairs featureVars.length).findSome? fun ij =>
    if checkBCond featureVars clean ij then
      some ((featureVars.getD ij.1 default).name, (featureVars.getD ij.2 default).name)
    else none

/-- The transformed target vector `Y`. -/
def yOf (mlog : Bool → ℚ → ℚ) (targetVar : String) (tlog tplus : Bool)
    (clean : List Row) : List JsNum :=
  clean.map fun row =>
    let v := toNumber (row targetVar)
    if tlog then getLogVal mlog tplus v else v

/-- `catLevels[f.name]`: distinct string values of a categorical column over
    the clean rows, sorted lexicographically, with the first (reference)
    level dropped — `Array.from(new Set(...)).sort().slice(1)`.  (`new Set`
    deduplicates keeping first occurrences; `List.dedup` keeps last
    occurrences, which is immaterial because the very next step sorts: a
    duplicate-free list of the same members sorted by `≤` is unique.) -/
def catLevelsOf (clean : List Row) (name : String) : List String :=
  (((clean.map fun r => toStr (r name)).dedup).insertionSort (· ≤ ·)).drop 1

/-- Column-name prefix for a numeric feature (`ln_`/`ln1p_`). -/
def featurePfx (f : VariableConfig) : String :=
  if f.logTransform then (if f.logPlusOne then "ln1p_" else "ln_") else ""

/-- The design-matrix column headers contributed by one feature: the
    (possibly prefixed) numeric name, or one `<var>_<level>` per retained
    categorical level. -/
def featHeaders (clean : List Row) (f : VariableConfig) : List String :=
  if f.type == .numeric then [featurePfx f ++ f.name]
  else (catLevelsOf clean f.name).map fun level => f.name ++ "_" ++ level

/-- `featureNames`: `"Intercept"`, then the headers of each feature in
    order. -/
def featureNamesOf (featureVars : List VariableConfig) (clean : List Row) :
    List String :=
  "Intercept" :: featureVars.flatMap (featHeaders clean)

/-- The design-matrix entries contributed by one feature in one row: the
    (possibly log-transformed) `Number` value, or the `0/1` indicators of
    the retained categorical levels. -/
def featEntries (mlog : Bool → ℚ → ℚ) (clean : List Row) (row : Row)
    (f : VariableConfig) : List JsNum :=
  if f.type == .numeric then
    [if f.logTransform then getLogVal mlog f.logPlusOne (toNumber (row f.name))
     else toNumber (row f.name)]
  else (catLevelsOf clean f.name).map fun level =>
    if toStr (row f.name) = level then .val 1 else .val 0

/-- One design-matrix row: leading `1`, then each feature's entries. -/
def xRowOf (mlog : Bool → ℚ → ℚ) (featureVars : List VariableConfig)
    (clean : List Row) (row : Row) : List JsNum :=
  .val 1 :: featureVars.flatMap (featEntries mlog clean row)

/-- `X_raw`: the design matrix over the clean rows. -/
def xMatrixOf (mlog : Bool → ℚ → ℚ) (featureVars : List VariableConfig)
    (clean : List Row) : List (List JsNum) :=
  clean.map (xRowOf mlog featureVars clean)

/-! ## Correlation matrix and VIF -/

/-- Mean of column `j` (`means[j]` loop of `computeCorrelationMatrix` /
    `calculateVIFs`). -/
def colMean (X : List (List JsNum)) (j : ℕ) : JsNum :=
  jdiv (jsumL (X.map fun row => row.getD j .nan)) (.val X.length)

/-- Sample variance (divisor `n - 1`) of column `j`, as computed by
    `calculateVIFs`. -/
def colVariance (X : List (List JsNum)) (j : ℕ) : JsNum :=
  jdiv (jsumL (X.map fun row => jsq (jsub (row.getD j .nan) (colMean X j))))
    (.val ((X.length : ℚ) - 1))

/-- Sample standard deviation of column `j` (`stds[j]` of
    `computeCorrelationMatrix`). -/
def colStd (msqrt : ℚ → ℚ) (X : List (List JsNum)) (j : ℕ) : JsNum :=
  jsqrt msqrt (colVariance X j)

/-- One entry of the Pearson correlation matrix: `NaN` if either column has
    `std < 1e-9`, `1` on the diagonal, otherwise the sum of standardised
    products over `n - 1`.  (The source fills `r ≤ c` and mirrors; the
    formula is symmetric in `r` and `c`, so evaluating it at every index
    pair yields the same matrix.) -/
def corrEntry (msqrt : ℚ → ℚ) (X : List (List JsNum)) (r c : ℕ) : JsNum :=
  let mr := colMean X r
  let mc := colMean X c
  let sr := colStd msqrt X r
  let sc := colStd msqrt X c
  if jltB sr (.val eps9) || jltB sc (.val eps9) then .nan
  else if r = c then .val 1
  else
    jdiv
      (jsumL (X.map fun row =>
        jmul (jdiv (jsub (row.getD r .nan) mr) sr) (jdiv (jsub (row.getD c .nan) mc) sc)))
      (.val ((X.length : ℚ) - 1))

/-- Source `computeCorrelationMatrix`. -/
def computeCorrelationMatrix (msqrt : ℚ → ℚ) (X : List (List JsNum)) :
    List (List JsNum) :=
  if X.length = 0 then []
  else
    let k := (X.headD []).length
    (List.range k).map fun r => (List.range k).map fun c => corrEntry msqrt X r c

/-- The `validIndices` of `calculateVIFs`: columns whose sample variance is
    `> 1e-9`. -/
def validIdxOf (X : List (List JsNum)) : List ℕ :=
  (List.range (X.headD []).length).filter fun j => jltB (.val eps9) (colVariance X j)

/-- Source `calculateVIFs`: columns with sample variance `> 1e-9` form the
    valid set; with fewer than two valid columns (or `k ≤ 1`) every column
    reports `1.0`; otherwise the correlation matrix of the valid columns is
    inverted — on success a valid column reports the corresponding diagonal
    entry (`NaN` promoted to `Infinity`) and an invalid column `Infinity`;
    if the inversion throws, every column reports `Infinity`. -/
def calculateVIFs (msqrt : ℚ → ℚ) (X : List (List JsNum)) : List JsNum :=
  let k := (X.headD []).length
  if k ≤ 1 then List.replicate k (.val 1)
  else
    let validIndices := validIdxOf X
    let p := validIndices.length
    if p < 2 then List.replicate k (.val 1)
    else
      let Xvalid := X.map fun row => validIndices.map fun idx => row.getD idx .nan
      let Rsmall := computeCorrelationMatrix msqrt Xvalid
      match gjInverse p (matOfLists Rsmall) with
      | some Rinv =>
          (List.range k).map fun j =>
            match validIndices.findIdx? (· = j) with
            | some i => let v := Rinv i i; if v = .nan then .inf else v
            | none => .inf
      | none => List.replicate k .inf

/-! ## Robustness summary, equation string, and the main entry point -/

/-- Arithmetic mean `mean(arr) = arr.reduce((a,b) => a+b, 0) / arr.length`. -/
def jmean (l : List JsNum) : JsNum := jdiv (jsumL l) (.val l.length)

/-- JavaScript `x || y` on numbers: `y` when `x` is falsy (`0` or `NaN`),
    else `x`. -/
def jsOr (x fallback : JsNum) : JsNum :=
  if x = .val 0 || x = .nan then fallback else x

/-- The per-coefficient bootstrap summary (the body of the `robustness`
    map): sort the collected estimates; an empty list yields the all-zero
    placeholder; otherwise mean, median at `⌊len/2⌋`, min, max, and the
    percentile entries at `⌊len·0.025⌋`/`⌊len·0.975⌋` guarded by the JS
    `||` fallback to min/max.  (`Math.floor(len * 0.025)` is modelled by
    exact rational floor, i.e. `len * 25 / 1000` in ℕ.) -/
def bootSummary (name : String) (orig : JsNum) (raw : List JsNum) :
    RobustnessMetrics :=
  let values := sortJs raw
  if values.length = 0 then
    ⟨name, orig, .val 0, .val 0, .val 0, .val 0, .val 0, .val 0⟩
  else
    let len := values.length
    let bMean := jmean values
    let bMedian := values.getD (len / 2) .nan
    let bMin := values.getD 0 .nan
    let bMax := values.getD (len - 1) .nan
    let bLow := jsOr (values.getD (len * 25 / 1000) .nan) bMin
    let bHigh := jsOr (values.getD (len * 975 / 1000) .nan) bMax
    ⟨name, orig, bMean, bMedian, bMin, bMax, bLow, bHigh⟩

/-- Left-pad with `'0'` to four characters. -/
def padLeft4 (s : String) : String :=
  ⟨List.replicate (4 - s.length) '0'⟩ ++ s

/-- JavaScript `number.toFixed(4)` (round half away from zero on the exact
    rational; a negative value rounding to zero prints without the JS `-0`
    sign — no claim depends on that corner). -/
def toFixed4 : JsNum → String
  | .nan => "NaN"
  | .inf => "Infinity"
  | .ninf => "-Infinity"
  | .val q =>
      let scaled : ℤ :=
        if q < 0 then -((-q) * 10000 + 1 / 2 : ℚ).floor else ((q * 10000 + 1 / 2 : ℚ)).floor
      let sign := if scaled < 0 then "-" else ""
      sign ++ natToStr (scaled.natAbs / 10000) ++ "." ++ padLeft4 (natToStr (scaled.natAbs % 10000))

/-- The `equation` string: `Y = b0 + b1*name1 ...` with `toFixed(4)`
    rendering and a `+` prefix for nonnegative coefficients. -/
def equationOf (coefficients : List ModelCoefficient) : String :=
  let parts := coefficients.enum.map fun ic =>
    if ic.1 = 0 then toFixed4 ic.2.value
    else (if jgeB ic.2.value (.val 0) then "+" else "") ++ " " ++
      toFixed4 ic.2.value ++ "*" ++ ic.2.name
  "Y = " ++ String.intercalate " " parts

/-- Default row used for the (always in-range) `cleanData[i]` accesses. -/
def defaultRow : Row := fun _ => (.undef)

/-- The predictions list: for each design row, `ŷ = Σ row[j]·β[j]`,
    the actual (transformed) target, the residual, and the string values of
    the categorical features for that row. -/
def predsOf (clean : List Row) (catFeatures : List VariableConfig)
    (X : List (List JsNum)) (Y : List JsNum) (Beta : List JsNum) :
    List PredictionEntry :=
  (List.range X.length).map fun i =>
    let xr := X.getD i []
    let pred := jsumL ((List.range xr.length).map fun j =>
      jmul (xr.getD j .nan) (Beta.getD j .nan))
    let yi := Y.getD i .nan
    { actual := yi, predicted := pred, residual := jsub yi pred,
      categories := catFeatures.map fun f =>
        (f.name, toStr ((clean.getD i defaultRow) f.name)) }

/-- `SST = Σ (actual - ȳ)²`. -/
def sstOf (yMean : JsNum) (preds : List PredictionEntry) : JsNum :=
  jsumL (preds.map fun p => jsq (jsub p.actual yMean))

/-- `SSE = Σ residual²`. -/
def sseOf (preds : List PredictionEntry) : JsNum :=
  jsumL (preds.map fun p => jsq p.residual)

/-- Everything `performRegression` computes before the bootstrap loop and
    the equation string: clean rows, design matrix, target vector, solved
    coefficients and all deterministic statistics.  Factored out of
    `performRegression` because none of it reads the random stream. -/
structure PrCore where
  clean : List Row
  xMatrix : List (List JsNum)
  yVec : List JsNum
  nObs : ℕ
  kParams : ℕ
  beta : List JsNum
  coefficients : List ModelCoefficient
  r2 : JsNum
  adjustedR2 : JsNum
  rmse : JsNum
  predictions : List PredictionEntry
  corrOut : CorrOut

/-- The deterministic part of `performRegression`, in source order:
    filter rows; throw on an empty clean set; safety checks A and B;
    build `Y`, the design matrix and the column names; throw when
    `n ≤ k`; solve OLS (translating `null` to the singular-matrix throw);
    compute predictions, `R²`, adjusted `R²`, `RMSE`, the standard errors
    via a second inversion of `XᵗX`, VIFs and the correlation matrix. -/
def prCore (mlog : Bool → ℚ → ℚ) (msqrt : ℚ → ℚ) (data : List Row)
    (targetVar : String) (featureVars : List VariableConfig)
    (tlog tplus : Bool) : Except RegError PrCore :=
  let clean := cleanOf targetVar tlog tplus featureVars data
  if clean.length = 0 then .error .emptyDataset
  else match checkA featureVars clean with
  | some nm => .error (.constantVariable nm)
  | none =>
  match checkB featureVars clean with
  | some ab => .error (.duplicateVariable ab.1 ab.2)
  | none =>
    let Y := yOf mlog targetVar tlog tplus clean
    let X := xMatrixOf mlog featureVars clean
    let names := featureNamesOf featureVars clean
    let n := Y.length
    let k := names.length
    if n ≤ k then .error (.insufficientSample n k)
    else match solveOLS X Y with
    | none => .error .singularMatrix
    | some Beta =>
      let kk := (X.headD []).length
      let catFeatures := featureVars.filter fun f => f.type == .categorical
      let predictions := predsOf clean catFeatures X Y Beta
      let sst := sstOf (jmean Y) predictions
      let sse := sseOf predictions
      let r2 := jsub (.val 1) (jdiv sse sst)
      let adjustedR2 :=
        jsub (.val 1)
          (jdiv (jmul (jsub (.val 1) r2) (.val ((n : ℚ) - 1))) (.val ((n : ℚ) - (k : ℚ))))
      let mse := jdiv sse (.val ((n : ℚ) - (k : ℚ)))
      let rmse := jsqrt msqrt mse
      let Xf := matOfLists X
      let XTX := matMul n (transposeF Xf) Xf
      match gjInverse kk XTX with
      | none => .error .singularSE
      | some XTXinv =>
        let Xno := X.map (List.drop 1)
        let vifs := calculateVIFs msqrt Xno
        let corrRaw := computeCorrelationMatrix msqrt Xno
        let coefficients := (List.range kk).map fun i =>
          let v := Beta.getD i .nan
          let se := jsqrt msqrt (jmul (XTXinv i i) mse)
          { name := names.getD i "", value := v, stdError := se,
            tStat := jdiv v se,
            confidenceInterval :=
              (jsub v (jmul (.val (49 / 25)) se), jadd v (jmul (.val (49 / 25)) se)),
            vif := if 0 < i then some (vifs.getD (i - 1) .nan) else none }
        .ok { clean := clean, xMatrix := X, yVec := Y, nObs := n, kParams := k,
              beta := Beta, coefficients := coefficients, r2 := r2,
              adjustedR2 := adjustedR2, rmse := rmse, predictions := predictions,
              corrOut := { names := names.drop 1, matrix := corrRaw } }

/-- The bootstrap loop: `50` iterations (`20` when `n > 2000`); each draws
    `n` indices from the stream (`Math.floor(Math.random() * n)` modelled as
    `rng iter i % n`), refits OLS on the resampled rows, silently drops
    failures, and collects per-coefficient estimate lists in iteration
    order. -/
def bootBetasOf (rng : ℕ → ℕ → ℕ) (kpar : ℕ) (X : List (List JsNum))
    (Y : List JsNum) : List (List JsNum) :=
  let n := Y.length
  let iters := if 2000 < n then 20 else 50
  let samples := (List.range iters).filterMap fun iter =>
    let indices := (List.range n).map fun i => rng iter i % n
    solveOLS (indices.map fun idx => X.getD idx [])
      (indices.map fun idx => Y.getD idx .nan)
  (List.range kpar).map fun j => samples.map (·.getD j .nan)

/-- The robustness list: one `bootSummary` per coefficient, with the
    `Intercept`-named entry filtered out. -/
def robustnessOf (rng : ℕ → ℕ → ℕ) (core : PrCore) : List RobustnessMetrics :=
  let betas := bootBetasOf rng core.kParams core.xMatrix core.yVec
  (core.coefficients.enum.map fun ic =>
      bootSummary ic.2.name ic.2.value (betas.getD ic.1 [])).filter
    fun r => r.name ≠ "Intercept"

/-- Assembly of the final `RegressionResult` from the deterministic core
    and the bootstrap robustness overlay.  The factoring through `prCore`
    preserves the source's computation order and values exactly; the random
    stream is consumed only by `robustnessOf`. -/
def assembleResult (rng : ℕ → ℕ → ℕ) (core : PrCore) : RegressionResult :=
  { coefficients := core.coefficients, r2 := core.r2,
    adjustedR2 := core.adjustedR2, rmse := core.rmse,
    observations := core.nObs, predictions := core.predictions,
    equation := equationOf core.coefficients,
    correlationMatrix := core.corrOut,
    robustness := robustnessOf rng core }

/-- Source `performRegression` (continued): deterministic core, then the
    robustness overlay and the equation string. -/
def performRegression (mlog : Bool → ℚ → ℚ) (msqrt : ℚ → ℚ)
    (rng : ℕ → ℕ → ℕ) (data : List Row) (targetVar : String)
    (featureVars : List VariableConfig) (tlog tplus : Bool) :
    Except RegError RegressionResult :=
  (prCore mlog msqrt data targetVar featureVars tlog tplus).map (assembleResult rng)

deriving instance DecidableEq for Except

/-! ## Specification-side definitions

The definitions in this section are written from the wording of the
specification and of the claims (not from the source); the theorems below
compare them with the source-derived definitions above. -/

/-- Whether a `JsNum` is a finite number (an actual numeric value — not
    `NaN` and not `±Infinity`). -/
def JsNum.isVal : JsNum → Bool
  | .val _ => true
  | _ => false

/-- Every entry of the list is a finite number. -/
def allValL (l : List JsNum) : Bool := l.all JsNum.isVal

/-- The rational value of a finite `JsNum` (junk `0` on `NaN`/`±Infinity`);
    used only to state and prove lemmas about all-finite computations. -/
def JsNum.toQ : JsNum → ℚ
  | .val q => q
  | _ => 0

/-- Claim C2's per-feature condition, written from the claim's words:
    the feature value is present (not missing/empty), and a numeric feature
    with a log transform converts to a number (not `NaN`) that is `> 0`
    (`> -1` when `logPlusOne`). -/
def specFeatValid (row : Row) (f : VariableConfig) : Bool :=
  !(row f.name = .null || row f.name = .undef || row f.name = .str "") &&
    (!(f.type == .numeric && f.logTransform) ||
      (!(jIsNaN (toNumber (row f.name))) &&
        (if f.logPlusOne then jltB (.val (-1)) (toNumber (row f.name))
         else jltB (.val 0) (toNumber (row f.name)))))

/-- Claim C2's row-validity predicate as stated: the target value converts
    to a *finite* number; under a target log transform the value is `> 0`
    (`> -1` when `logPlusOne`); and every feature passes `specFeatValid`. -/
def specRowValidClaim (targetVar : String) (tlog tplus : Bool)
    (featureVars : List VariableConfig) (row : Row) : Bool :=
  let yVal := toNumber (row targetVar)
  yVal.isVal &&
    (!tlog || (if tplus then jltB (.val (-1)) yVal else jltB (.val 0) yVal)) &&
    featureVars.all (specFeatValid row)

/-- Claim C2 amended: identical to `specRowValidClaim` except that the
    target value is only required to convert to a non-`NaN` number —
    `±Infinity` targets are retained, exactly as the source's `isNaN`
    check behaves. -/
def specRowValidAmended (targetVar : String) (tlog tplus : Bool)
    (featureVars : List VariableConfig) (row : Row) : Bool :=
  let yVal := toNumber (row targetVar)
  !(jIsNaN yVal) &&
    (!tlog || (if tplus then jltB (.val (-1)) yVal else jltB (.val 0) yVal)) &&
    featureVars.all (specFeatValid row)

/-- A list of numbers that is constant (all entries equal) — the literal
    "zero variance / constant" reading of claim C3's check-A condition. -/
def allSameNum (l : List JsNum) : Bool := l.all (· == l.headD .nan)

/-- Claim C5's correlation-matrix restriction: the principal submatrix of
    the full Pearson correlation matrix of `X` at the index list `idxs`. -/
def corrRestricted (msqrt : ℚ → ℚ) (X : List (List JsNum)) (idxs : List ℕ) :
    List (List JsNum) :=
  let full := matOfLists (computeCorrelationMatrix msqrt X)
  (List.range idxs.length).map fun a =>
    (List.range idxs.length).map fun b => full (idxs.getD a 0) (idxs.getD b 0)

/-- Columns whose sample variance is a nonzero finite number — claim C5's
    literal "nonzero variance" column set. -/
def nzVarIdx (X : List (List JsNum)) : List ℕ :=
  (List.range (X.headD []).length).filter fun j =>
    match colVariance X j with
    | .val q => decide (q ≠ 0)
    | _ => false

/-- Claim C5 as stated, as a property of `calculateVIFs`' output: a column
    with zero variance reports `+∞`; a column with nonzero (finite) variance
    reports the corresponding diagonal entry of the inverse of the
    correlation matrix restricted to the nonzero-variance columns (`nzVarIdx`),
    with every column reporting `+∞` when that restricted matrix is
    singular. -/
def vifClaimHolds (msqrt : ℚ → ℚ) (X : List (List JsNum)) : Prop :=
  ∀ j, j < (X.headD []).length →
    (colVariance X j = .val 0 → (calculateVIFs msqrt X).getD j .nan = .inf) ∧
    (∀ i, (nzVarIdx X).findIdx? (· = j) = some i →
      match gjInverse (nzVarIdx X).length (matOfLists (corrRestricted msqrt X (nzVarIdx X))) with
      | some Rinv => (calculateVIFs msqrt X).getD j .nan = Rinv i i
      | none => (calculateVIFs msqrt X).getD j .nan = .inf)

/-- Claim C5 amended: the source's branch structure, with the restricted
    correlation matrix expressed as a principal submatrix of the full
    correlation matrix (spec style) rather than as the correlation matrix
    of a column-selected copy (source style). -/
def vifSpecAmended (msqrt : ℚ → ℚ) (X : List (List JsNum)) : List JsNum :=
  let k := (X.headD []).length
  if k ≤ 1 then List.replicate k (.val 1)
  else
    let valid := validIdxOf X
    if valid.length < 2 then List.replicate k (.val 1)
    else
      match gjInverse valid.length (matOfLists (corrRestricted msqrt X valid)) with
      | some Rinv =>
          (List.range k).map fun j =>
            match valid.findIdx? (· = j) with
            | some i => (if Rinv i i = .nan then .inf else Rinv i i)
            | none => .inf
      | none => List.replicate k .inf

/-- Claim C6's summary as stated: over the sorted estimates, mean, median at
    `⌊len/2⌋`, min, max, and the percentile *elements themselves* at
    `⌊len·0.025⌋`/`⌊len·0.975⌋` — the min/max fallback applies only to an
    out-of-range index, which for these indices never happens on a nonempty
    list. -/
def specC6Summary (name : String) (orig : JsNum) (raw : List JsNum) :
    RobustnessMetrics :=
  let values := sortJs raw
  if values.length = 0 then
    ⟨name, orig, .val 0, .val 0, .val 0, .val 0, .val 0, .val 0⟩
  else
    let len := values.length
    ⟨name, orig, jmean values, values.getD (len / 2) .nan, values.getD 0 .nan,
      values.getD (len - 1) .nan, values.getD (len * 25 / 1000) .nan,
      values.getD (len * 975 / 1000) .nan⟩

/-- Claim C6 amended: as `specC6Summary`, except that a percentile element
    that is `0` or `NaN` (JavaScript falsy) is replaced by the min
    (resp. max) — the source's `values[idx] || bMin` fallback. -/
def specC6Amended (name : String) (orig : JsNum) (raw : List JsNum) :
    RobustnessMetrics :=
  let values := sortJs raw
  if values.length = 0 then
    ⟨name, orig, .val 0, .val 0, .val 0, .val 0, .val 0, .val 0⟩
  else
    let len := values.length
    let bMin := values.getD 0 .nan
    let bMax := values.getD (len - 1) .nan
    let low := values.getD (len * 25 / 1000) .nan
    let high := values.getD (len * 975 / 1000) .nan
    ⟨name, orig, jmean values, values.getD (len / 2) .nan, bMin, bMax,
      if low = .val 0 || low = .nan then bMin else low,
      if high = .val 0 || high = .nan then bMax else high⟩

/-- A `RegressionResult` with the robustness overlay removed — everything
    `performRegression` computes deterministically. -/
structure DetResult where
  coefficients : List ModelCoefficient
  r2 : JsNum
  adjustedR2 : JsNum
  rmse : JsNum
  observations : ℕ
  predictions : List PredictionEntry
  equation : String
  correlationMatrix : CorrOut
deriving DecidableEq

/-- Drop the robustness list from a result. -/
def stripRobustness (r : RegressionResult) : DetResult :=
  ⟨r.coefficients, r.r2, r.adjustedR2, r.rmse, r.observations, r.predictions,
    r.equation, r.correlationMatrix⟩

/-! ## Concrete instances used by counterexamples and witnesses -/

/-- Stub for `Math.log`/`Math.log1p` used by closed concrete statements
    (none of them applies a log transform, so the value is irrelevant). -/
def mlog0 : Bool → ℚ → ℚ := fun _ _ => 0

/-- Stub for `Math.sqrt` used by closed concrete statements whose asserted
    values do not depend on square roots. -/
def msqrt0 : ℚ → ℚ := fun _ => 0

/-- The all-zero random stream: every bootstrap resample repeats row 0. -/
def rngZ : ℕ → ℕ → ℕ := fun _ _ => 0

/-- The identity random stream: every bootstrap resample is the original
    sample in order. -/
def rngId : ℕ → ℕ → ℕ := fun _ i => i

/-- A two-column row (`y`, `x`). -/
def rowYX (y x : Value) : Row :=
  fun s => if s = "y" then y else if s = "x" then x else (.undef)

/-- A three-column row (`y`, `x1`, `x2`). -/
def rowYXX (y x1 x2 : Value) : Row :=
  fun s =>
    if s = "y" then y else if s = "x1" then x1 else if s = "x2" then x2 else (.undef)

/-- A single numeric feature `x`, no transforms. -/
def fvX : List VariableConfig := [⟨"x", .numeric, .feature, false, false⟩]

/-- Numeric features `x1`, `x2`, no transforms. -/
def fvXX : List VariableConfig :=
  [⟨"x1", .numeric, .feature, false, false⟩, ⟨"x2", .numeric, .feature, false, false⟩]

/-- A single categorical feature `c`. -/
def fvCat : List VariableConfig := [⟨"c", .categorical, .feature, false, false⟩]

/-- Noiseless synthetic dataset for claim C1: `y = 3 + 2·x1 - x2` exactly,
    five observations. -/
def dataC1 : List Row :=
  [rowYXX (.num 3) (.num 0) (.num 0),
   rowYXX (.num 5) (.num 1) (.num 0),
   rowYXX (.num 2) (.num 0) (.num 1),
   rowYXX (.num 4) (.num 1) (.num 1),
   rowYXX (.num 6) (.num 2) (.num 1)]

/-- Three collinear observations `y = x` (used by several closed
    statements; the OLS fit is exact with `β = (0, 1)`). -/
def dataLin : List Row :=
  [rowYX (.num 1) (.num 1), rowYX (.num 2) (.num 2), rowYX (.num 3) (.num 3)]

/-- Counterexample data for claim C2: the first row's target is the string
    `"Infinity"`, which converts to `Infinity` — not finite, yet not `NaN`. -/
def dataC2 : List Row :=
  [rowYX (.str "Infinity") (.num 1), rowYX (.num 2) (.num 2)]

/-- Counterexample data for claim C3: feature `x` takes the two distinct
    values `0` and `1e-10` — nonzero variance, but `max - min < 1e-9`. -/
def dataC3 : List Row :=
  [rowYX (.num 1) (.num 0), rowYX (.num 2) (.num (1 / 10 ^ 10))]

/-- Constant-feature data (witness for the amended claim C3). -/
def dataC3w : List Row :=
  [rowYX (.num 1) (.num 5), rowYX (.num 2) (.num 5)]

/-- Categorical data with levels `A`, `B`, `C` for claim C4. -/
def dataC4 : List Row :=
  [rowYX (.num 1) .undef, rowYX (.num 2) .undef, rowYX (.num 3) .undef]

/-- Rows carrying a categorical column `c` with levels `B`, `A`, `C`, `A`. -/
def rowsCat : List Row :=
  [fun s => if s = "c" then .str "B" else .undef,
   fun s => if s = "c" then .str "A" else .undef,
   fun s => if s = "c" then .str "C" else .undef,
   fun s => if s = "c" then .str "A" else .undef]

/-- Counterexample matrix for claim C5: first column constant `5` (zero
    variance), second column `1, 2, 3`; only one column passes the variance
    filter, so the source's `p < 2` branch reports `1.0` for every column. -/
def xC5 : List (List JsNum) :=
  [[.val 5, .val 1], [.val 5, .val 2], [.val 5, .val 3]]

/-- Counterexample estimate list for claim C6: 41 sorted values
    `-39, …, -1, 0, 5`; the 97.5th-percentile index is
    `⌊41 · 0.975⌋ = 39`, and `values[39] = 0` is falsy. -/
def c6List : List JsNum :=
  ((List.range 40).map fun i => .val ((i : ℚ) - 39)) ++ [.val 5]

/-- Constant-target data for claim C8: `y = 5` with varying `x`; the fit is
    exact, so `SSE = SST = 0` and `R² = 1 - 0/0 = NaN`. -/
def dataC8 : List Row :=
  [rowYX (.num 5) (.num 1), rowYX (.num 5) (.num 2), rowYX (.num 5) (.num 3)]

/-- Data for claim C9: the numeric feature `x` (no log transform) holds the
    non-numeric, non-empty string `"abc"` in every row. -/
def dataC9 : List Row :=
  [rowYX (.num 1) (.str "abc"), rowYX (.num 2) (.str "abc"),
   rowYX (.num 3) (.str "abc")]

/-- The successful `prCore` result on `dataLin` (recomputed through
    `Except.toOption`, so that closed statements can name its fields). -/
def resC8 : PrCore :=
  (prCore mlog0 msqrt0 dataLin "y" fvX false false).toOption.getD
    ⟨[], [], [], 0, 0, [], [], .nan, .nan, .nan, [], ⟨[], []⟩⟩

/-! # Lemmas and theorems -/

set_option maxRecDepth 100000

theorem jadd_val (a b : ℚ) : jadd (.val a) (.val b) = .val (a + b) := rfl

theorem jneg_val (a : ℚ) : jneg (.val a) = .val (-a) := rfl

theorem jsub_val (a b : ℚ) : jsub (.val a) (.val b) = .val (a - b) := by
  simp [jsub, jadd, jneg, sub_eq_add_neg]

theorem jmul_val (a b : ℚ) : jmul (.val a) (.val b) = .val (a * b) := rfl

theorem jsq_val (a : ℚ) : jsq (.val a) = .val (a ^ 2) := by
  simp [jsq, jmul_val, sq]

theorem jdiv_val (a b : ℚ) (hb : b ≠ 0) : jdiv (.val a) (.val b) = .val (a / b) := by
  simp [jdiv, hb]

theorem isVal_iff (v : JsNum) : v.isVal = true ↔ ∃ q, v = .val q := by
  cases v <;> simp [JsNum.isVal]

theorem isVal_toQ (v : JsNum) (h : v.isVal = true) : v = .val v.toQ := by
  cases v <;> simp_all [JsNum.isVal, JsNum.toQ]

theorem foldl_jadd_val (l : List JsNum) (h : ∀ x ∈ l, x.isVal = true) (a : ℚ) :
    l.foldl jadd (.val a) = .val (a + (l.map JsNum.toQ).sum) := by
  induction l generalizing a with
  | nil => simp
  | cons x xs ih =>
      obtain ⟨q, rfl⟩ := (isVal_iff x).1 (h x (by simp))
      simp only [List.foldl_cons, jadd_val, List.map_cons, List.sum_cons]
      rw [ih (fun y hy => h y (by simp [hy]))]
      congr 1
      push_cast [JsNum.toQ]
      ring

theorem jsumL_val (l : List JsNum) (h : ∀ x ∈ l, x.isVal = true) :
    jsumL l = .val ((l.map JsNum.toQ).sum) := by
  simpa [jsumL] using foldl_jadd_val l h 0

theorem jltB_val (a b : ℚ) : jltB (.val a) (.val b) = decide (a < b) := rfl

theorem jleB_val (a b : ℚ) : jleB (.val a) (.val b) = decide (a ≤ b) := rfl

theorem isVal_jsub (a b : JsNum) (ha : a.isVal = true) (hb : b.isVal = true) :
    (jsub a b).isVal = true := by
  obtain ⟨x, rfl⟩ := (isVal_iff a).1 ha
  obtain ⟨y, rfl⟩ := (isVal_iff b).1 hb
  simp [jsub_val, JsNum.isVal]

theorem isVal_jmul (a b : JsNum) (ha : a.isVal = true) (hb : b.isVal = true) :
    (jmul a b).isVal = true := by
  obtain ⟨x, rfl⟩ := (isVal_iff a).1 ha
  obtain ⟨y, rfl⟩ := (isVal_iff b).1 hb
  simp [jmul_val, JsNum.isVal]

theorem isVal_jdiv (a b : JsNum) (ha : a.isVal = true) (hb : b.isVal = true)
    (hb0 : b.toQ ≠ 0) : (jdiv a b).isVal = true := by
  obtain ⟨x, rfl⟩ := (isVal_iff a).1 ha
  obtain ⟨y, rfl⟩ := (isVal_iff b).1 hb
  rw [jdiv_val x y (by simpa [JsNum.toQ] using hb0)]
  simp [JsNum.isVal]

theorem toQ_ne_zero_of_not_small (v : JsNum) (hv : v.isVal = true)
    (h : jltB (jabs v) (.val eps10) = false) : v.toQ ≠ 0 := by
  obtain ⟨q, rfl⟩ := (isVal_iff v).1 hv
  intro hq
  simp only [JsNum.toQ] at hq
  subst hq
  norm_num [jabs, jltB, eps10] at h

theorem toQ_ne_zero_of_large (v : JsNum) (hv : v.isVal = true)
    (h : jltB (.val eps10) (jabs v) = true) : v.toQ ≠ 0 := by
  obtain ⟨q, rfl⟩ := (isVal_iff v).1 hv
  intro hq
  simp only [JsNum.toQ] at hq
  subst hq
  norm_num [jabs, jltB, eps10] at h

theorem rowSwap_val {sz : ℕ} {m : Mat} {i t : ℕ}
    (hm : ∀ r c, r < sz → c < sz → (m r c).isVal = true)
    (hi : i < sz) (ht : t < sz) :
    ∀ r c, r < sz → c < sz → (rowSwap m i t r c).isVal = true := by
  intro r c hr hc
  unfold rowSwap
  split
  · exact hm t c ht hc
  · split
    · exact hm i c hi hc
    · exact hm r c hr hc

theorem gjPivotChoice_spec {sz i t : ℕ} {m : Mat}
    (h : gjPivotChoice sz i m = some t) (hi : i < sz) :
    t < sz ∧ (t = i ∧ jltB (jabs (m i i)) (.val eps10) = false ∨
      jltB (.val eps10) (jabs (m t i)) = true) := by
  unfold gjPivotChoice at h
  by_cases hcond : jltB (jabs (m i i)) (.val eps10) = true
  · rw [if_pos hcond] at h
    have hmem := List.mem_of_find?_eq_some h
    have hpred := List.find?_some h
    simp only [Bool.and_eq_true, decide_eq_true_eq] at hpred
    exact ⟨by simpa using hmem, Or.inr hpred.2⟩
  · rw [if_neg hcond] at h
    cases h
    exact ⟨hi, Or.inl ⟨rfl, by simpa using hcond⟩⟩

theorem gjScale_val {sz i : ℕ} {piv : JsNum} {m : Mat}
    (hm : ∀ r c, r < sz → c < sz → (m r c).isVal = true)
    (hpv : piv.isVal = true) (hpnz : piv.toQ ≠ 0) :
    ∀ r c, r < sz → c < sz → (gjScale i piv m r c).isVal = true := by
  intro r c hr hc
  unfold gjScale
  split
  · exact isVal_jdiv _ _ (hm r c hr hc) hpv hpnz
  · exact hm r c hr hc

theorem gjReduce_val {sz i : ℕ} {mScaled other : Mat} (hi : i < sz)
    (hms : ∀ r c, r < sz → c < sz → (mScaled r c).isVal = true)
    (hot : ∀ r c, r < sz → c < sz → (other r c).isVal = true) :
    ∀ r c, r < sz → c < sz → (gjReduce i mScaled other r c).isVal = true := by
  intro r c hr hc
  unfold gjReduce
  split
  · exact hot r c hr hc
  · exact isVal_jsub _ _ (hot r c hr hc)
      (isVal_jmul _ _ (hms r i hr hi) (hot i c hi hc))

theorem gjElim_val {sz i t : ℕ} {p : Mat × Mat} (hi : i < sz) (ht : t < sz)
    (hm : ∀ r c, r < sz → c < sz → (p.1 r c).isVal = true)
    (hid : ∀ r c, r < sz → c < sz → (p.2 r c).isVal = true)
    (hpnz : ((rowSwap p.1 i t) i i).toQ ≠ 0) :
    (∀ r c, r < sz → c < sz → ((gjElim i t p).1 r c).isVal = true) ∧
    (∀ r c, r < sz → c < sz → ((gjElim i t p).2 r c).isVal = true) := by
  have hm1 : ∀ r c, r < sz → c < sz → ((rowSwap p.1 i t) r c).isVal = true :=
    rowSwap_val hm hi ht
  have hid1 : ∀ r c, r < sz → c < sz → ((rowSwap p.2 i t) r c).isVal = true :=
    rowSwap_val hid hi ht
  have hpv : ((rowSwap p.1 i t) i i).isVal = true := hm1 i i hi hi
  have hm2 := @gjScale_val sz i _ _ hm1 hpv hpnz
  have hid2 := @gjScale_val sz i _ _ hid1 hpv hpnz
  exact ⟨gjReduce_val hi hm2 hm2, gjReduce_val hi hm2 hid2⟩

theorem gjStep_val {sz i : ℕ} {p q : Mat × Mat} (hi : i < sz)
    (hm : ∀ r c, r < sz → c < sz → (p.1 r c).isVal = true)
    (hid : ∀ r c, r < sz → c < sz → (p.2 r c).isVal = true)
    (h : gjStep sz i p = some q) :
    (∀ r c, r < sz → c < sz → (q.1 r c).isVal = true) ∧
    (∀ r c, r < sz → c < sz → (q.2 r c).isVal = true) := by
  unfold gjStep at h
  cases hc : gjPivotChoice sz i p.1 with
  | none => rw [hc] at h; exact absurd h (by simp)
  | some t =>
    rw [hc] at h
    simp only [Option.map_some', Option.some.injEq] at h
    subst h
    obtain ⟨ht, hpiv⟩ := gjPivotChoice_spec hc hi
    have hpnz : ((rowSwap p.1 i t) i i).toQ ≠ 0 := by
      rcases hpiv with ⟨rfl, hsmall⟩ | hlarge
      · have he : rowSwap p.1 t t t t = p.1 t t := by simp [rowSwap]
        rw [he]
        exact toQ_ne_zero_of_not_small _ (hm t t ht ht) hsmall
      · have he : rowSwap p.1 i t i i = p.1 t i := by simp [rowSwap]
        rw [he]
        exact toQ_ne_zero_of_large _ (hm t i ht hi) hlarge
    exact gjElim_val hi ht hm hid hpnz

theorem gjLoop_val {sz : ℕ} :
    ∀ (f i : ℕ) (p q : Mat × Mat),
      (∀ r c, r < sz → c < sz → (p.1 r c).isVal = true) →
      (∀ r c, r < sz → c < sz → (p.2 r c).isVal = true) →
      gjLoop sz f i p = some q →
      (∀ r c, r < sz → c < sz → (q.2 r c).isVal = true) := by
  intro f
  induction f with
  | zero =>
      intro i p q h1 h2 h
      simp only [gjLoop, Option.some.injEq] at h
      subst h
      exact h2
  | succ f ih =>
      intro i p q h1 h2 h
      unfold gjLoop at h
      split at h
      · cases hs : gjStep sz i p with
        | none => rw [hs] at h; exact absurd h (by simp)
        | some p2 =>
            rw [hs] at h
            simp only [Option.some_bind] at h
            obtain ⟨hm2, hid2⟩ := gjStep_val (by assumption) h1 h2 hs
            exact ih (i + 1) p2 q hm2 hid2 h
      · simp only [Option.some.injEq] at h
        subst h
        exact h2

theorem gjInverse_val {sz : ℕ} {A : Mat} {M : Mat}
    (hA : ∀ r c, r < sz → c < sz → (A r c).isVal = true)
    (h : gjInverse sz A = some M) :
    ∀ r c, r < sz → c < sz → (M r c).isVal = true := by
  unfold gjInverse at h
  cases hl : gjLoop sz sz 0 (A, fun r c => if r = c then .val 1 else .val 0) with
  | none => rw [hl] at h; exact absurd h (by simp)
  | some pq =>
      rw [hl] at h
      simp only [Option.map_some', Option.some.injEq] at h
      subst h
      exact gjLoop_val sz 0 _ pq hA
        (by intro r c hr hc; dsimp only; split <;> simp [JsNum.isVal]) hl

theorem matMul_val {inner : ℕ} {A B : Mat} {r c : ℕ}
    (h : ∀ t, t < inner → (A r t).isVal = true ∧ (B t c).isVal = true) :
    (matMul inner A B r c).isVal = true := by
  unfold matMul
  rw [jsumL_val]
  · simp [JsNum.isVal]
  · intro x hx
    simp only [List.mem_map, List.mem_range] at hx
    obtain ⟨t, ht, rfl⟩ := hx
    exact isVal_jmul _ _ (h t ht).1 (h t ht).2

theorem matOfLists_val {X : List (List JsNum)} {i j : ℕ}
    (hrows : ∀ row ∈ X, row.length = (X.headD []).length ∧ ∀ x ∈ row, x.isVal = true)
    (hi : i < X.length) (hj : j < (X.headD []).length) :
    (matOfLists X i j).isVal = true := by
  unfold matOfLists
  rw [List.getD_eq_getElem X [] hi]
  obtain ⟨hlen, hval⟩ := hrows X[i] (List.getElem_mem hi)
  rw [List.getD_eq_getElem X[i] .nan (by omega)]
  exact hval _ (List.getElem_mem _)

theorem solveOLS_val {X : List (List JsNum)} {Y : List JsNum} {B : List JsNum}
    (hrows : ∀ row ∈ X, row.length = (X.headD []).length ∧ ∀ x ∈ row, x.isVal = true)
    (hY : ∀ y ∈ Y, y.isVal = true) (hlen : X.length ≤ Y.length)
    (h : solveOLS X Y = some B) :
    ∀ b ∈ B, b.isVal = true := by
  simp only [solveOLS] at h
  set kk := (X.headD []).length with hkk
  set n := X.length with hn
  have hXf : ∀ i j, i < n → j < kk → (matOfLists X i j).isVal = true := by
    intro i j hi hj
    exact matOfLists_val hrows hi hj
  have hXTX : ∀ r c, r < kk → c < kk →
      (matMul n (transposeF (matOfLists X)) (matOfLists X) r c).isVal = true := by
    intro r c hr hc
    exact matMul_val fun t ht => ⟨hXf t r ht hr, hXf t c ht hc⟩
  cases hg : gjInverse kk (matMul n (transposeF (matOfLists X)) (matOfLists X)) with
  | none => rw [hg] at h; exact absurd h (by simp)
  | some M =>
      rw [hg] at h
      simp only [Option.some.injEq] at h
      subst h
      have hM := gjInverse_val hXTX hg
      intro b hb
      simp only [List.mem_map, List.mem_range] at hb
      obtain ⟨j, hj, rfl⟩ := hb
      refine matMul_val fun t ht => ⟨hM j t hj ht, ?_⟩
      refine matMul_val fun i hi => ⟨hXf i t hi ht, ?_⟩
      rw [List.getD_eq_getElem Y .nan (by omega)]
      exact hY _ (List.getElem_mem _)

/-- C6 counterexample: for the concrete sorted estimate list
    `-39, …, -1, 0, 5` (41 successful estimates), the element at the
    97.5th-percentile index `⌊41·0.975⌋ = 39` is `0`, which is JavaScript
    falsy, so the source reports the max `5` instead of the claimed
    percentile element `0` — the fallback fires although the index is in
    range and the list is nonempty, refuting the claim as stated. -/
theorem claim_C6_counterexample :
    bootSummary "x" (.val 0) c6List ≠ specC6Summary "x" (.val 0) c6List := by
  with_unfolding_all decide

/-- C6 (amended): for every coefficient with at least one successful
    bootstrap estimate, the robustness summary over the sorted estimates is:
    mean; median = element at index `⌊len/2⌋`; min; max; and 2.5th/97.5th
    percentiles = the elements at indices `⌊len·0.025⌋`/`⌊len·0.975⌋`,
    except that when that element is `0` or `NaN` (JavaScript falsy) the min
    (resp. max) is reported in its place.  The mean, median, min and max
    components agree with the claim as originally stated. -/
theorem claim_C6 (name : String) (orig : JsNum) (raw : List JsNum)
    (h : raw ≠ []) :
    bootSummary name orig raw = specC6Amended name orig raw ∧
    (bootSummary name orig raw).bootstrapMean = (specC6Summary name orig raw).bootstrapMean ∧
    (bootSummary name orig raw).bootstrapMedian = (specC6Summary name orig raw).bootstrapMedian ∧
    (bootSummary name orig raw).bootstrapMin = (specC6Summary name orig raw).bootstrapMin ∧
    (bootSummary name orig raw).bootstrapMax = (specC6Summary name orig raw).bootstrapMax := by
  refine ⟨rfl, ?_, ?_, ?_, ?_⟩ <;>
    · by_cases hz : (sortJs raw).length = 0 <;>
        simp [bootSummary, specC6Summary, hz]

/-- C6 witness: the amended statement instantiated at the singleton
    estimate list `[1]`. -/
theorem claim_C6_witness :
    ([(.val 1 : JsNum)] ≠ []) ∧
    (bootSummary "x" (.val 0) [.val 1] = specC6Amended "x" (.val 0) [.val 1] ∧
      (bootSummary "x" (.val 0) [.val 1]).bootstrapMean =
        (specC6Summary "x" (.val 0) [.val 1]).bootstrapMean ∧
      (bootSummary "x" (.val 0) [.val 1]).bootstrapMedian =
        (specC6Summary "x" (.val 0) [.val 1]).bootstrapMedian ∧
      (bootSummary "x" (.val 0) [.val 1]).bootstrapMin =
        (specC6Summary "x" (.val 0) [.val 1]).bootstrapMin ∧
      (bootSummary "x" (.val 0) [.val 1]).bootstrapMax =
        (specC6Summary "x" (.val 0) [.val 1]).bootstrapMax) :=
  ⟨by decide, claim_C6 "x" (.val 0) [.val 1] (by decide)⟩

theorem getD_map_range {α : Type} (f : ℕ → α) {k i : ℕ} (d : α) (h : i < k) :
    ((List.range k).map f).getD i d = f i := by
  rw [List.getD_eq_getElem _ d (by simpa using h)]
  simp

theorem getD_map_row (row : List JsNum) (idxs : List ℕ) {a : ℕ}
    (ha : a < idxs.length) :
    (idxs.map fun idx => row.getD idx .nan).getD a .nan =
      row.getD (idxs.getD a 0) .nan := by
  have hlen : a < (idxs.map fun idx => row.getD idx .nan).length := by simpa using ha
  rw [List.getD_eq_getElem (idxs.map fun idx => row.getD idx .nan) .nan hlen,
    List.getElem_map, List.getD_eq_getElem idxs 0 ha]

theorem colMean_sel (X : List (List JsNum)) (idxs : List ℕ) {a : ℕ}
    (ha : a < idxs.length) :
    colMean (X.map fun row => idxs.map fun idx => row.getD idx .nan) a =
      colMean X (idxs.getD a 0) := by
  unfold colMean
  rw [List.length_map, List.map_map]
  have : ((fun row : List JsNum => row.getD a .nan) ∘
      fun row : List JsNum => idxs.map fun idx => row.getD idx .nan) =
      fun row : List JsNum => (idxs.map fun idx => row.getD idx .nan).getD a .nan := rfl
  rw [this]
  rw [List.map_congr_left fun row _ => getD_map_row row idxs ha]

theorem colVariance_sel (X : List (List JsNum)) (idxs : List ℕ) {a : ℕ}
    (ha : a < idxs.length) :
    colVariance (X.map fun row => idxs.map fun idx => row.getD idx .nan) a =
      colVariance X (idxs.getD a 0) := by
  unfold colVariance
  rw [List.length_map, List.map_map, colMean_sel X idxs ha]
  have : ((fun row : List JsNum => jsq (jsub (row.getD a .nan) (colMean X (idxs.getD a 0)))) ∘
      fun row : List JsNum => idxs.map fun idx => row.getD idx .nan) =
      fun row : List JsNum =>
        jsq (jsub ((idxs.map fun idx => row.getD idx .nan).getD a .nan)
          (colMean X (idxs.getD a 0))) := rfl
  rw [this]
  rw [List.map_congr_left fun row _ => by rw [getD_map_row row idxs ha]]

theorem corrEntry_sel (msqrt : ℚ → ℚ) (X : List (List JsNum)) (idxs : List ℕ)
    {a b : ℕ} (ha : a < idxs.length) (hb : b < idxs.length)
    (hnd : idxs.Nodup) :
    corrEntry msqrt (X.map fun row => idxs.map fun idx => row.getD idx .nan) a b =
      corrEntry msqrt X (idxs.getD a 0) (idxs.getD b 0) := by
  have hab : (idxs.getD a 0 = idxs.getD b 0) ↔ a = b := by
    rw [List.getD_eq_getElem idxs 0 ha, List.getD_eq_getElem idxs 0 hb]
    exact hnd.getElem_inj_iff
  simp only [corrEntry, colStd]
  rw [colMean_sel X idxs ha, colMean_sel X idxs hb, colVariance_sel X idxs ha,
    colVariance_sel X idxs hb, List.length_map, List.map_map]
  by_cases hcond : (jltB (jsqrt msqrt (colVariance X (idxs.getD a 0))) (.val eps9) ||
      jltB (jsqrt msqrt (colVariance X (idxs.getD b 0))) (.val eps9)) = true
  · rw [if_pos hcond, if_pos hcond]
  · rw [if_neg hcond, if_neg hcond]
    by_cases heq : a = b
    · rw [if_pos heq, if_pos (hab.2 heq)]
    · rw [if_neg heq, if_neg (fun hx => heq (hab.1 hx))]
      congr 1
      refine congrArg jsumL ?_
      refine List.map_congr_left fun row _ => ?_
      have h1 : ((fun r : List JsNum =>
          jmul (jdiv (jsub (r.getD a .nan) (colMean X (idxs.getD a 0)))
              (jsqrt msqrt (colVariance X (idxs.getD a 0))))
            (jdiv (jsub (r.getD b .nan) (colMean X (idxs.getD b 0)))
              (jsqrt msqrt (colVariance X (idxs.getD b 0))))) ∘
          fun r : List JsNum => idxs.map fun idx => r.getD idx .nan) row =
          jmul (jdiv (jsub ((idxs.map fun idx => row.getD idx .nan).getD a .nan)
              (colMean X (idxs.getD a 0)))
              (jsqrt msqrt (colVariance X (idxs.getD a 0))))
            (jdiv (jsub ((idxs.map fun idx => row.getD idx .nan).getD b .nan)
              (colMean X (idxs.getD b 0)))
              (jsqrt msqrt (colVariance X (idxs.getD b 0)))) := rfl
      rw [h1, getD_map_row row idxs ha, getD_map_row row idxs hb]

theorem matOfLists_corr (msqrt : ℚ → ℚ) (X : List (List JsNum)) {ia ib : ℕ}
    (hX : X ≠ []) (hia : ia < (X.headD []).length)
    (hib : ib < (X.headD []).length) :
    matOfLists (computeCorrelationMatrix msqrt X) ia ib = corrEntry msqrt X ia ib := by
  simp only [matOfLists, computeCorrelationMatrix]
  rw [if_neg (fun hz => hX (List.length_eq_zero.1 hz))]
  have h1 := getD_map_range
    (fun r => (List.range (X.headD []).length).map fun c => corrEntry msqrt X r c)
    ([] : List JsNum) hia
  rw [h1]
  exact getD_map_range _ JsNum.nan hib

theorem corrMatrix_sel (msqrt : ℚ → ℚ) (X : List (List JsNum)) (idxs : List ℕ)
    (hX : X ≠ []) (hnd : idxs.Nodup)
    (hmem : ∀ x ∈ idxs, x < (X.headD []).length) :
    computeCorrelationMatrix msqrt
        (X.map fun row => idxs.map fun idx => row.getD idx .nan) =
      corrRestricted msqrt X idxs := by
  have hL : computeCorrelationMatrix msqrt
      (X.map fun row => idxs.map fun idx => row.getD idx .nan) =
      (List.range idxs.length).map fun a => (List.range idxs.length).map fun b =>
        corrEntry msqrt (X.map fun row => idxs.map fun idx => row.getD idx .nan) a b := by
    obtain ⟨r0, X2, rfl⟩ := List.exists_cons_of_ne_nil hX
    simp [computeCorrelationMatrix]
  have hR : corrRestricted msqrt X idxs =
      (List.range idxs.length).map fun a => (List.range idxs.length).map fun b =>
        matOfLists (computeCorrelationMatrix msqrt X) (idxs.getD a 0) (idxs.getD b 0) := by
    simp only [corrRestricted]
  rw [hL, hR]
  refine List.map_congr_left fun a hamem => ?_
  refine List.map_congr_left fun b hbmem => ?_
  rw [List.mem_range] at hamem hbmem
  rw [corrEntry_sel msqrt X idxs hamem hbmem hnd]
  have hina : idxs.getD a 0 < (X.headD []).length := by
    refine hmem _ ?_
    rw [List.getD_eq_getElem idxs 0 hamem]
    exact List.getElem_mem _
  have hinb : idxs.getD b 0 < (X.headD []).length := by
    refine hmem _ ?_
    rw [List.getD_eq_getElem idxs 0 hbmem]
    exact List.getElem_mem _
  rw [matOfLists_corr msqrt X hX hina hinb]

/-- C5 counterexample: for the concrete design columns `[5,5,5]` (zero
    variance) and `[1,2,3]`, only one column passes the source's variance
    filter, so `calculateVIFs` takes its `p < 2` early return and reports
    `1.0` for every column — including the zero-variance column that the
    claim says must receive `+∞`. -/
theorem claim_C5_counterexample : ¬ vifClaimHolds msqrt0 xC5 := by
  intro h
  have h0 := (h 0 (by with_unfolding_all decide)).1 (by with_unfolding_all decide)
  have hv : (calculateVIFs msqrt0 xC5).getD 0 .nan = .val 1 := by
    with_unfolding_all decide
  rw [hv] at h0
  exact absurd h0 (by decide)

/-- C5 (amended): `calculateVIFs` computes, for every non-intercept design
    matrix: with fewer than two columns of sample variance `> 1e-9`
    (including the `k ≤ 1` case), every column reports `1.0`; otherwise the
    Pearson correlation matrix restricted to the `> 1e-9`-variance columns
    (a principal submatrix of the full correlation matrix) is inverted by
    Gauss–Jordan — on success each retained column reports the
    corresponding diagonal entry of the inverse (`NaN` promoted to `+∞`)
    and each filtered-out column reports `+∞`; if the inversion fails every
    column reports `+∞`. -/
theorem claim_C5 (msqrt : ℚ → ℚ) (X : List (List JsNum)) :
    calculateVIFs msqrt X = vifSpecAmended msqrt X := by
  simp only [calculateVIFs, vifSpecAmended]
  by_cases hk : (X.headD []).length ≤ 1
  · rw [if_pos hk, if_pos hk]
  · rw [if_neg hk, if_neg hk]
    by_cases hp : (validIdxOf X).length < 2
    · rw [if_pos hp, if_pos hp]
    · rw [if_neg hp, if_neg hp]
      have hX : X ≠ [] := by
        intro h0
        subst h0
        exact hp (by simp [validIdxOf])
      rw [corrMatrix_sel msqrt X (validIdxOf X) hX
        ((List.nodup_range _).filter _)
        (fun x hx => by simpa using (List.mem_filter.1 hx).1)]

theorem jnot_jleB (v : JsNum) (c : ℚ) (h : v ≠ .nan) :
    (!(jleB v (.val c))) = jltB (.val c) v := by
  cases v with
  | nan => exact absurd rfl h
  | inf => rfl
  | ninf => rfl
  | val a =>
      show (!(decide (a ≤ c))) = decide (c < a)
      rw [← decide_not, decide_eq_decide]
      exact not_le

theorem ne_nan_of_not_isNaN (v : JsNum) (h : jIsNaN v = false) : v ≠ .nan := by
  simpa [jIsNaN] using h

theorem featValid_eq_spec (row : Row) (f : VariableConfig) :
    featValid row f = specFeatValid row f := by
  unfold featValid specFeatValid
  by_cases hpres : row f.name = .null ∨ row f.name = .undef ∨ row f.name = .str ""
  · rcases hpres with hp | hp | hp <;> simp [hp]
  · push_neg at hpres
    obtain ⟨hp1, hp2, hp3⟩ := hpres
    by_cases hn : (f.type == VarType.numeric && f.logTransform) = true
    · by_cases hnan : jIsNaN (toNumber (row f.name)) = true
      · simp [hp1, hp2, hp3, hn, hnan]
      · have hnf : jIsNaN (toNumber (row f.name)) = false := by simpa using hnan
        have hne := ne_nan_of_not_isNaN _ hnf
        cases hlp : f.logPlusOne <;>
          simp [hp1, hp2, hp3, hn, hnf, hlp, ← jnot_jleB _ _ hne]
    · have hnf : (f.type == VarType.numeric && f.logTransform) = false := by
        simpa using hn
      simp [hp1, hp2, hp3, hnf]

theorem rowValid_eq_amended (targetVar : String) (tlog tplus : Bool)
    (fv : List VariableConfig) (row : Row) :
    rowValid targetVar tlog tplus fv row =
      specRowValidAmended targetVar tlog tplus fv row := by
  unfold rowValid specRowValidAmended
  have hfeat : fv.all (featValid row) = fv.all (specFeatValid row) := by
    congr 1
    funext f
    exact featValid_eq_spec row f
  by_cases h1 : jIsNaN (toNumber (row targetVar)) = true
  · simp [h1]
  · have h1f : jIsNaN (toNumber (row targetVar)) = false := by simpa using h1
    have hnn := ne_nan_of_not_isNaN _ h1f
    cases tlog with
    | false => simp [h1f, hfeat]
    | true =>
        cases tplus with
        | false =>
            by_cases h2 : jleB (toNumber (row targetVar)) (.val 0) = true
            · simp [h1f, h2, ← jnot_jleB _ _ hnn]
            · have h2f : jleB (toNumber (row targetVar)) (.val 0) = false := by
                simpa using h2
              simp [h1f, h2f, ← jnot_jleB _ _ hnn, hfeat]
        | true =>
            by_cases h2 : jleB (toNumber (row targetVar)) (.val (-1)) = true
            · simp [h1f, h2, ← jnot_jleB _ _ hnn]
            · have h2f : jleB (toNumber (row targetVar)) (.val (-1)) = false := by
                simpa using h2
              simp [h1f, h2f, ← jnot_jleB _ _ hnn, hfeat]

/-- C2 counterexample: a row whose target is the string `"Infinity"`
    converts to `Infinity` — not a finite number, so the claim says the row
    is removed; the source only checks `isNaN` and keeps it.  Hence the
    clean set differs from the claimed filter on the concrete data
    `dataC2`. -/
theorem claim_C2_counterexample :
    rowValid "y" false false fvX (rowYX (.str "Infinity") (.num 1)) = true ∧
    specRowValidClaim "y" false false fvX (rowYX (.str "Infinity") (.num 1)) = false ∧
    (cleanOf "y" false false fvX dataC2).length = 2 ∧
    (dataC2.filter (specRowValidClaim "y" false false fvX)).length = 1 := by
  refine ⟨?_, ?_, ?_, ?_⟩ <;> with_unfolding_all decide

/-- C2 (amended): the preprocessing retains exactly those input rows, in
    their original order, for which the target value converts to a non-`NaN`
    number (`±Infinity` allowed — this is the amendment; the claim said
    "finite"); if the target has a log transform the value is `> 0`
    (`> -1` when `logPlusOne`); every feature value is present (not
    missing/empty); and every numeric feature with a log transform converts
    to a number satisfying the same domain bound; every other row is
    removed. -/
theorem claim_C2 (targetVar : String) (tlog tplus : Bool)
    (fv : List VariableConfig) (data : List Row) :
    cleanOf targetVar tlog tplus fv data =
      data.filter (specRowValidAmended targetVar tlog tplus fv) := by
  unfold cleanOf
  exact List.filter_congr fun row _ => rowValid_eq_amended targetVar tlog tplus fv row

set_option maxHeartbeats 4000000 in
/-- C1: `solveOLS` returns exactly the coefficient vector obtained by the
    kernel composition `(XᵗX)⁻¹ Xᵗy` — transpose, multiply, Gauss–Jordan
    inverse, multiply — succeeding precisely when the Gauss–Jordan
    inversion of `XᵗX` succeeds; and on the noiseless synthetic dataset
    `y = 3 + 2·x1 - x2` (`dataC1`), `performRegression` recovers the
    coefficient vector exactly `(3, 2, -1)` (equality, a fortiori within
    `1e-6`). -/
theorem claim_C1 :
    (∀ (X : List (List JsNum)) (Y : List JsNum),
      solveOLS X Y =
        (gjInverse (X.headD []).length
            (matMul X.length (transposeF (matOfLists X)) (matOfLists X))).map
          fun XTXinv =>
            (List.range (X.headD []).length).map fun j =>
              matMul (X.headD []).length XTXinv
                (matMul X.length (transposeF (matOfLists X))
                  (fun i _ => Y.getD i .nan)) j 0) ∧
    (performRegression mlog0 msqrt0 rngZ dataC1 "y" fvXX false false).map
        (fun r => r.coefficients.map (·.value)) =
      .ok [.val 3, .val 2, .val (-1)] := by
  constructor
  · intro X Y
    simp only [solveOLS]
    cases hg : gjInverse (X.headD []).length
        (matMul X.length (transposeF (matOfLists X)) (matOfLists X)) with
    | none => rfl
    | some M => rfl
  · with_unfolding_all decide

theorem exceptMap_comp {ε α β γ : Type} (f : α → β) (g : β → γ) (x : Except ε α) :
    (x.map f).map g = x.map fun v => g (f v) := by
  cases x <;> rfl

/-- C7 counterexample: two invocations of `performRegression` with
    identical data, target, features and flags but different draws of the
    hidden `Math.random` stream return different `RegressionResult` values
    (the bootstrap robustness overlay differs), refuting the claim that two
    invocations with identical arguments return identical results. -/
theorem claim_C7_counterexample :
    performRegression mlog0 msqrt0 rngZ dataLin "y" fvX false false ≠
      performRegression mlog0 msqrt0 rngId dataLin "y" fvX false false := by
  intro hx
  have hrob : (performRegression mlog0 msqrt0 rngZ dataLin "y" fvX false false).map
        (fun r => r.robustness.map (·.bootstrapMedian)) =
      (performRegression mlog0 msqrt0 rngId dataLin "y" fvX false false).map
        (fun r => r.robustness.map (·.bootstrapMedian)) := by rw [hx]
  have h1 : (performRegression mlog0 msqrt0 rngZ dataLin "y" fvX false false).map
      (fun r => r.robustness.map (·.bootstrapMedian)) = .ok [.val 0] := by
    with_unfolding_all decide
  have h2 : (performRegression mlog0 msqrt0 rngId dataLin "y" fvX false false).map
      (fun r => r.robustness.map (·.bootstrapMedian)) = .ok [.val 1] := by
    with_unfolding_all decide
  rw [h1, h2] at hrob
  exact absurd hrob (by decide)

/-- C7 (amended): `performRegression` is a pure function of its inputs
    *and the random stream*; moreover every component of the result except
    the robustness overlay is independent of the stream: stripping
    `robustness` yields identical values for any two random streams.  No
    state persists between runs (the model is a pure function). -/
theorem claim_C7 (mlog : Bool → ℚ → ℚ) (msqrt : ℚ → ℚ) (r1 r2 : ℕ → ℕ → ℕ)
    (data : List Row) (targetVar : String) (fv : List VariableConfig)
    (tlog tplus : Bool) :
    (performRegression mlog msqrt r1 data targetVar fv tlog tplus).map stripRobustness =
      (performRegression mlog msqrt r2 data targetVar fv tlog tplus).map stripRobustness := by
  have hs : ∀ (rng : ℕ → ℕ → ℕ) (core : PrCore),
      stripRobustness (assembleResult rng core) =
        ⟨core.coefficients, core.r2, core.adjustedR2, core.rmse, core.nObs,
          core.predictions, equationOf core.coefficients, core.corrOut⟩ :=
    fun rng core => rfl
  unfold performRegression
  rw [exceptMap_comp, exceptMap_comp]
  exact congrArg
    (fun fn => Except.map fn (prCore mlog msqrt data targetVar fv tlog tplus))
    (funext fun core => (hs r1 core).trans (hs r2 core).symm)

theorem performRegression_error_iff (mlog : Bool → ℚ → ℚ) (msqrt : ℚ → ℚ)
    (rng : ℕ → ℕ → ℕ) (data : List Row) (targetVar : String)
    (fv : List VariableConfig) (tlog tplus : Bool) (e : RegError) :
    performRegression mlog msqrt rng data targetVar fv tlog tplus = .error e ↔
      prCore mlog msqrt data targetVar fv tlog tplus = .error e := by
  unfold performRegression
  cases prCore mlog msqrt data targetVar fv tlog tplus <;> simp [Except.map]

theorem prCore_constVar_iff (mlog : Bool → ℚ → ℚ) (msqrt : ℚ → ℚ)
    (data : List Row) (targetVar : String) (fv : List VariableConfig)
    (tlog tplus : Bool)
    (hne : (cleanOf targetVar tlog tplus fv data).length ≠ 0) (nm : String) :
    prCore mlog msqrt data targetVar fv tlog tplus = .error (.constantVariable nm) ↔
      checkA fv (cleanOf targetVar tlog tplus fv data) = some nm := by
  simp only [prCore]
  rw [if_neg hne]
  cases hA : checkA fv (cleanOf targetVar tlog tplus fv data) with
  | some nm2 => simp
  | none =>
      dsimp only
      refine iff_of_false ?_ (by simp)
      cases hB : checkB fv (cleanOf targetVar tlog tplus fv data) with
      | some ab => simp
      | none =>
          dsimp only
          split
          · simp
          · split
            · simp
            · split <;> simp

theorem prCore_dupVar_iff (mlog : Bool → ℚ → ℚ) (msqrt : ℚ → ℚ)
    (data : List Row) (targetVar : String) (fv : List VariableConfig)
    (tlog tplus : Bool)
    (hne : (cleanOf targetVar tlog tplus fv data).length ≠ 0) (a b : String) :
    prCore mlog msqrt data targetVar fv tlog tplus = .error (.duplicateVariable a b) ↔
      (checkA fv (cleanOf targetVar tlog tplus fv data) = none ∧
        checkB fv (cleanOf targetVar tlog tplus fv data) = some (a, b)) := by
  simp only [prCore]
  rw [if_neg hne]
  cases hA : checkA fv (cleanOf targetVar tlog tplus fv data) with
  | some nm2 => simp
  | none =>
      dsimp only
      cases hB : checkB fv (cleanOf targetVar tlog tplus fv data) with
      | some ab =>
          dsimp only
          simp only [true_and]
          constructor
          · intro h
            simp only [RegError.duplicateVariable.injEq] at h
            cases ab
            simp_all
          · intro h
            simp only [Option.some.injEq] at h
            subst h
            rfl
      | none =>
          dsimp only
          refine iff_of_false ?_ (by simp)
          split
          · simp
          · split
            · simp
            · split <;> simp

theorem foldl_jmin2_const (q : ℚ) (l : List JsNum)
    (hc : ∀ v ∈ l, v = .val q) : l.foldl jmin2 (.val q) = .val q := by
  induction l with
  | nil => rfl
  | cons x xs ih =>
      simp only [List.foldl_cons]
      rw [hc x (by simp)]
      have hmm : jmin2 (.val q) (.val q) = .val q := by simp [jmin2, jleB]
      rw [hmm]
      exact ih fun v hv => hc v (by simp [hv])

theorem foldl_jmax2_const (q : ℚ) (l : List JsNum)
    (hc : ∀ v ∈ l, v = .val q) : l.foldl jmax2 (.val q) = .val q := by
  induction l with
  | nil => rfl
  | cons x xs ih =>
      simp only [List.foldl_cons]
      rw [hc x (by simp)]
      have hmm : jmax2 (.val q) (.val q) = .val q := by simp [jmax2, jleB]
      rw [hmm]
      exact ih fun v hv => hc v (by simp [hv])

theorem jsMinList_const (q : ℚ) (l : List JsNum) (hl : l ≠ [])
    (hc : ∀ v ∈ l, v = .val q) : jsMinList l = .val q := by
  obtain ⟨x, xs, rfl⟩ := List.exists_cons_of_ne_nil hl
  unfold jsMinList
  simp only [List.foldl_cons]
  rw [hc x (by simp)]
  have hmm : jmin2 .inf (.val q) = .val q := by simp [jmin2, jleB]
  rw [hmm]
  exact foldl_jmin2_const q xs fun v hv => hc v (by simp [hv])

theorem jsMaxList_const (q : ℚ) (l : List JsNum) (hl : l ≠ [])
    (hc : ∀ v ∈ l, v = .val q) : jsMaxList l = .val q := by
  obtain ⟨x, xs, rfl⟩ := List.exists_cons_of_ne_nil hl
  unfold jsMaxList
  simp only [List.foldl_cons]
  rw [hc x (by simp)]
  have hmm : jmax2 .ninf (.val q) = .val q := by simp [jmax2, jleB]
  rw [hmm]
  exact foldl_jmax2_const q xs fun v hv => hc v (by simp [hv])

theorem checkACond_const (clean : List Row) (f : VariableConfig)
    (hnum : f.type = .numeric) (hne : numColVals clean f.name ≠ [])
    (q : ℚ) (hc : ∀ v ∈ numColVals clean f.name, v = .val q) :
    checkACond clean f = true := by
  simp only [checkACond]
  rw [jsMaxList_const q _ hne hc, jsMinList_const q _ hne hc]
  have h1 : jsub (.val q) (.val q) = .val 0 := by rw [jsub_val]; ring_nf
  rw [h1]
  norm_num [hnum, jabs, jltB, eps9]

/-- C3 counterexample: on `dataC3` the feature `x` takes the two distinct
    values `0` and `1e-10` — it is not constant (nonzero variance) and there
    is no duplicate pair, so the claim says no pre-fit structural error is
    raised; but `max - min = 1e-10 < 1e-9`, so the source throws the
    constant-variable error anyway. -/
theorem claim_C3_counterexample :
    (∀ f ∈ fvX,
      allSameNum (numColVals (cleanOf "y" false false fvX dataC3) f.name) = false) ∧
    (∀ ij ∈ dupPairs fvX.length,
      checkBCond fvX (cleanOf "y" false false fvX dataC3) ij = false) ∧
    performRegression mlog0 msqrt0 rngZ dataC3 "y" fvX false false =
      .error (.constantVariable "x") := by
  refine ⟨?_, ?_, ?_⟩ <;> with_unfolding_all decide

/-- C3 (amended): after cleaning (with a nonempty clean set) and before any
    matrix operation, `performRegression` raises the constant-variable
    error, naming variable `nm`, exactly when `nm` is the first numeric
    feature whose clean-row values satisfy `|max - min| < 1e-9` (`checkA`;
    in particular any constant numeric feature triggers it); it raises the
    duplicate-variable error for a pair exactly when no feature trips
    check A and that pair is the first pair of numeric features identical
    within `1e-9` on every clean row (`checkB`); a constant numeric feature
    always causes some constant-variable error, and an identical pair
    always causes one of the two errors; when neither condition holds,
    neither error is raised (immediate from the two characterisations). -/
theorem claim_C3 (mlog : Bool → ℚ → ℚ) (msqrt : ℚ → ℚ) (rng : ℕ → ℕ → ℕ)
    (data : List Row) (targetVar : String) (fv : List VariableConfig)
    (tlog tplus : Bool)
    (hne : (cleanOf targetVar tlog tplus fv data).length ≠ 0) :
    (∀ nm, performRegression mlog msqrt rng data targetVar fv tlog tplus =
        .error (.constantVariable nm) ↔
      checkA fv (cleanOf targetVar tlog tplus fv data) = some nm) ∧
    (∀ a b, performRegression mlog msqrt rng data targetVar fv tlog tplus =
        .error (.duplicateVariable a b) ↔
      (checkA fv (cleanOf targetVar tlog tplus fv data) = none ∧
        checkB fv (cleanOf targetVar tlog tplus fv data) = some (a, b))) ∧
    ((∃ f ∈ fv, f.type = .numeric ∧
        numColVals (cleanOf targetVar tlog tplus fv data) f.name ≠ [] ∧
        ∃ q, ∀ v ∈ numColVals (cleanOf targetVar tlog tplus fv data) f.name,
          v = .val q) →
      ∃ nm, performRegression mlog msqrt rng data targetVar fv tlog tplus =
        .error (.constantVariable nm)) ∧
    ((∃ ij ∈ dupPairs fv.length,
        checkBCond fv (cleanOf targetVar tlog tplus fv data) ij = true) →
      (∃ nm, performRegression mlog msqrt rng data targetVar fv tlog tplus =
        .error (.constantVariable nm)) ∨
      (∃ a b, performRegression mlog msqrt rng data targetVar fv tlog tplus =
        .error (.duplicateVariable a b))) := by
  have hiff1 : ∀ nm, performRegression mlog msqrt rng data targetVar fv tlog tplus =
      .error (.constantVariable nm) ↔
      checkA fv (cleanOf targetVar tlog tplus fv data) = some nm := fun nm =>
    (performRegression_error_iff mlog msqrt rng data targetVar fv tlog tplus _).trans
      (prCore_constVar_iff mlog msqrt data targetVar fv tlog tplus hne nm)
  have hiff2 : ∀ a b, performRegression mlog msqrt rng data targetVar fv tlog tplus =
      .error (.duplicateVariable a b) ↔
      (checkA fv (cleanOf targetVar tlog tplus fv data) = none ∧
        checkB fv (cleanOf targetVar tlog tplus fv data) = some (a, b)) := fun a b =>
    (performRegression_error_iff mlog msqrt rng data targetVar fv tlog tplus _).trans
      (prCore_dupVar_iff mlog msqrt data targetVar fv tlog tplus hne a b)
  refine ⟨hiff1, hiff2, ?_, ?_⟩
  · rintro ⟨f, hf, hnum, hcne, q, hq⟩
    have hcond := checkACond_const _ f hnum hcne q hq
    have hsome : (fv.find? (checkACond (cleanOf targetVar tlog tplus fv data))).isSome :=
      List.find?_isSome.2 ⟨f, hf, hcond⟩
    obtain ⟨g, hg⟩ := Option.isSome_iff_exists.1 hsome
    exact ⟨g.name, (hiff1 g.name).2 (by simp [checkA, hg])⟩
  · rintro ⟨ij, hij, hcond⟩
    cases hA : checkA fv (cleanOf targetVar tlog tplus fv data) with
    | some nm => exact Or.inl ⟨nm, (hiff1 nm).2 hA⟩
    | none =>
        cases hB : checkB fv (cleanOf targetVar tlog tplus fv data) with
        | some ab =>
            refine Or.inr ⟨ab.1, ab.2, (hiff2 ab.1 ab.2).2 ⟨hA, ?_⟩⟩
            rw [hB]
        | none =>
            exfalso
            have h0 : ∀ a b, (a, b) ∈ dupPairs fv.length →
                checkBCond fv (cleanOf targetVar tlog tplus fv data) (a, b) = false := by
              simpa [checkB] using hB
            obtain ⟨i, j⟩ := ij
            exact absurd (h0 i j hij) (by simp [hcond])

/-- C3 witness: the amended characterisation instantiated on the
    constant-feature data `dataC3w`, where the feature `x` is constant `5`
    and the constant-variable error names `x`. -/
theorem claim_C3_witness :
    ((cleanOf "y" false false fvX dataC3w).length ≠ 0) ∧
    (performRegression mlog0 msqrt0 rngZ dataC3w "y" fvX false false =
        .error (.constantVariable "x") ↔
      checkA fvX (cleanOf "y" false false fvX dataC3w) = some "x") :=
  ⟨by with_unfolding_all decide,
   (claim_C3 mlog0 msqrt0 rngZ dataC3w "y" fvX false false
      (by with_unfolding_all decide)).1 "x"⟩

theorem mem_drop_one_sorted {α : Type} [LinearOrder α] {l : List α}
    (hlt : List.Sorted (· < ·) l) (s : α) :
    s ∈ l.drop 1 ↔ (s ∈ l ∧ ∃ t ∈ l, t < s) := by
  cases l with
  | nil => simp
  | cons hd rest =>
      rw [List.sorted_cons] at hlt
      obtain ⟨hhd, hrest⟩ := hlt
      simp only [List.drop_succ_cons, List.drop_zero]
      constructor
      · intro hs
        exact ⟨List.mem_cons_of_mem hd hs, hd, List.mem_cons_self hd rest, hhd s hs⟩
      · rintro ⟨hsl, t, htl, hts⟩
        rcases List.mem_cons.1 hsl with rfl | hs2
        · rcases List.mem_cons.1 htl with rfl | ht2
          · exact absurd hts (lt_irrefl t)
          · exact absurd (lt_trans (hhd t ht2) hts) (lt_irrefl _)
        · exact hs2

theorem sortedDedup_sorted (vals : List String) :
    List.Sorted (· < ·) (vals.dedup.insertionSort (· ≤ ·)) :=
  (List.sorted_insertionSort _ _).lt_of_le
    ((List.perm_insertionSort _ _).nodup_iff.2 (List.nodup_dedup _))

theorem sortedDedup_mem (vals : List String) (x : String) :
    x ∈ vals.dedup.insertionSort (· ≤ ·) ↔ x ∈ vals :=
  (List.perm_insertionSort _ _).mem_iff.trans List.mem_dedup

/-- C4: for every categorical feature and clean-row set, the emitted
    indicator columns are exactly one per distinct string level other than
    the smallest (a level is retained iff some strictly smaller level also
    occurs), in strictly sorted (lexicographic) order, named
    `<var>_<level>`, with entries `1` on rows holding that level and `0`
    otherwise; a variable with a single distinct level contributes zero
    columns; and concretely, levels `{"A","B","C"}` yield exactly the two
    columns `c_B` and `c_C`. -/
theorem claim_C4 (clean : List Row) (f : VariableConfig)
    (hcat : f.type = .categorical) :
    List.Sorted (· < ·) (catLevelsOf clean f.name) ∧
    (∀ s, s ∈ catLevelsOf clean f.name ↔
      (s ∈ clean.map (fun r => toStr (r f.name)) ∧
        ∃ t ∈ clean.map (fun r => toStr (r f.name)), t < s)) ∧
    featHeaders clean f =
      (catLevelsOf clean f.name).map (fun level => f.name ++ "_" ++ level) ∧
    (∀ (mlog : Bool → ℚ → ℚ) (row : Row),
      featEntries mlog clean row f = (catLevelsOf clean f.name).map
        (fun level => if toStr (row f.name) = level then .val 1 else .val 0)) ∧
    ((clean.map (fun r => toStr (r f.name))).dedup.length = 1 →
      catLevelsOf clean f.name = []) ∧
    (catLevelsOf rowsCat "c" = ["B", "C"] ∧
      featureNamesOf fvCat rowsCat = ["Intercept", "c_B", "c_C"]) := by
  have hcatb : (f.type == VarType.categorical) = true := by simp [hcat]
  have hnotnum : (f.type == VarType.numeric) = false := by simp [hcat]
  refine ⟨?_, ?_, ?_, ?_, ?_, ?_, ?_⟩
  · exact List.Pairwise.drop (sortedDedup_sorted _)
  · intro s
    rw [catLevelsOf, mem_drop_one_sorted (sortedDedup_sorted _) s]
    simp only [sortedDedup_mem]
  · simp [featHeaders, hnotnum]
  · intro mlog row
    simp [featEntries, hnotnum]
  · intro hlen
    have hlen2 : (catLevelsOf clean f.name).length = 0 := by
      unfold catLevelsOf
      rw [List.length_drop, (List.perm_insertionSort _ _).length_eq, hlen]
    exact List.length_eq_zero.1 hlen2
  · with_unfolding_all decide
  · with_unfolding_all decide

theorem claim_C4_witness :
    catLevelsOf rowsCat "c" = ["B", "C"] ∧
      featureNamesOf fvCat rowsCat = ["Intercept", "c_B", "c_C"] :=
  (claim_C4 rowsCat ⟨"c", .categorical, .feature, false, false⟩ rfl).2.2.2.2.2

/-- C9: a row whose numeric, non-log-transformed feature holds a non-empty
    string that does not convert to a number (so `Number(...)` gives `NaN`)
    passes the preprocessing filter whenever the other checks pass: the row
    is retained in `cleanData`, its design-matrix entry for that feature is
    `NaN`, no empty-dataset error is raised, and concretely (feature `x`
    equal to `"abc"` on every row) the regression returns a result whose
    fitted coefficients and `R²` are all `NaN`. -/
theorem claim_C9 (mlog : Bool → ℚ → ℚ) (msqrt : ℚ → ℚ)
    (data : List Row) (targetVar : String) (tlog tplus : Bool)
    (pre post : List VariableConfig) (f : VariableConfig) (row : Row)
    (s : String)
    (hnum : f.type = .numeric) (hnl : f.logTransform = false)
    (hval : row f.name = .str s) (hnn : jsStrToNumber s = .nan)
    (hvalid : rowValid targetVar tlog tplus (pre ++ f :: post) row = true)
    (hmem : row ∈ data) :
    row ∈ cleanOf targetVar tlog tplus (pre ++ f :: post) data ∧
    (∀ clean, featEntries mlog clean row f = [.nan]) ∧
    (∀ clean, xRowOf mlog (pre ++ f :: post) clean row =
      .val 1 :: (pre.flatMap (featEntries mlog clean row) ++
        .nan :: post.flatMap (featEntries mlog clean row))) ∧
    prCore mlog msqrt data targetVar (pre ++ f :: post) tlog tplus ≠
      .error .emptyDataset ∧
    ((performRegression mlog0 msqrt0 rngZ dataC9 "y" fvX false false).map
        (fun res => (res.coefficients.map (fun c => c.value), res.r2)) =
      .ok ([JsNum.nan, JsNum.nan], JsNum.nan)) := by
  have hfeat : ∀ clean, featEntries mlog clean row f = [.nan] := by
    intro clean
    simp [featEntries, hnum, hnl, hval, toNumber, hnn]
  have hrc : row ∈ cleanOf targetVar tlog tplus (pre ++ f :: post) data :=
    List.mem_filter.2 ⟨hmem, hvalid⟩
  refine ⟨hrc, hfeat, ?_, ?_, ?_⟩
  · intro clean
    simp [xRowOf, hfeat clean]
  · have hne : (cleanOf targetVar tlog tplus (pre ++ f :: post) data).length ≠ 0 := by
      intro h0
      rw [List.length_eq_zero.1 h0] at hrc
      exact List.not_mem_nil row hrc
    simp only [prCore]
    rw [if_neg hne]
    cases checkA (pre ++ f :: post) (cleanOf targetVar tlog tplus (pre ++ f :: post) data) with
    | some nm => simp
    | none =>
        dsimp only
        cases checkB (pre ++ f :: post)
            (cleanOf targetVar tlog tplus (pre ++ f :: post) data) with
        | some ab => simp
        | none =>
            dsimp only
            split
            · simp
            · split
              · simp
              · split <;> simp
  · with_unfolding_all decide

theorem claim_C9_witness :
    (performRegression mlog0 msqrt0 rngZ dataC9 "y" fvX false false).map
        (fun res => (res.coefficients.map (fun c => c.value), res.r2)) =
      .ok ([JsNum.nan, JsNum.nan], JsNum.nan) :=
  (claim_C9 mlog0 msqrt0 dataC9 "y" false false [] []
    ⟨"x", .numeric, .feature, false, false⟩ (rowYX (.num 1) (.str "abc")) "abc"
    rfl rfl (by with_unfolding_all decide) (by with_unfolding_all decide)
    (by with_unfolding_all decide) (by simp [dataC9])).2.2.2.2

theorem featEntries_length (mlog : Bool → ℚ → ℚ) (clean : List Row) (row : Row)
    (f : VariableConfig) :
    (featEntries mlog clean row f).length = (featHeaders clean f).length := by
  simp only [featEntries, featHeaders]
  split <;> simp

theorem xRowOf_length (mlog : Bool → ℚ → ℚ) (fv : List VariableConfig)
    (clean : List Row) (row : Row) :
    (xRowOf mlog fv clean row).length = (featureNamesOf fv clean).length := by
  simp only [xRowOf, featureNamesOf, List.length_cons, List.length_flatMap]
  have hmaps : List.map (List.length ∘ featEntries mlog clean row) fv =
      List.map (List.length ∘ featHeaders clean) fv :=
    List.map_congr_left fun f _ => featEntries_length mlog clean row f
  rw [hmaps]

theorem prCore_ok_fields (mlog : Bool → ℚ → ℚ) (msqrt : ℚ → ℚ)
    (data : List Row) (targetVar : String) (fv : List VariableConfig)
    (tlog tplus : Bool) (res : PrCore)
    (h : prCore mlog msqrt data targetVar fv tlog tplus = .ok res) :
    res.clean = cleanOf targetVar tlog tplus fv data ∧
    res.xMatrix = xMatrixOf mlog fv res.clean ∧
    res.yVec = yOf mlog targetVar tlog tplus res.clean ∧
    res.nObs = res.yVec.length ∧
    res.kParams = (featureNamesOf fv res.clean).length ∧
    res.kParams < res.nObs ∧
    solveOLS res.xMatrix res.yVec = some res.beta ∧
    res.predictions = predsOf res.clean (fv.filter fun f => f.type == .categorical)
      res.xMatrix res.yVec res.beta ∧
    res.r2 = jsub (.val 1) (jdiv (sseOf res.predictions)
      (sstOf (jmean res.yVec) res.predictions)) ∧
    res.adjustedR2 = jsub (.val 1)
      (jdiv (jmul (jsub (.val 1) res.r2) (.val ((res.nObs : ℚ) - 1)))
        (.val ((res.nObs : ℚ) - (res.kParams : ℚ)))) := by
  simp only [prCore] at h
  set clean := cleanOf targetVar tlog tplus fv data with hclean
  by_cases hne : clean.length = 0
  · rw [if_pos hne] at h; exact Except.noConfusion h
  rw [if_neg hne] at h
  cases hA : checkA fv clean with
  | some nm => rw [hA] at h; exact Except.noConfusion h
  | none =>
  rw [hA] at h
  cases hB : checkB fv clean with
  | some ab => rw [hB] at h; exact Except.noConfusion h
  | none =>
  rw [hB] at h
  by_cases hnk : (yOf mlog targetVar tlog tplus clean).length ≤
      (featureNamesOf fv clean).length
  · rw [if_pos hnk] at h; exact Except.noConfusion h
  rw [if_neg hnk] at h
  cases hS : solveOLS (xMatrixOf mlog fv clean) (yOf mlog targetVar tlog tplus clean) with
  | none => rw [hS] at h; exact Except.noConfusion h
  | some Beta =>
  rw [hS] at h
  cases hG : gjInverse ((xMatrixOf mlog fv clean).headD []).length
      (matMul (yOf mlog targetVar tlog tplus clean).length
        (transposeF (matOfLists (xMatrixOf mlog fv clean)))
        (matOfLists (xMatrixOf mlog fv clean))) with
  | none => rw [hG] at h; exact Except.noConfusion h
  | some M =>
  rw [hG] at h
  obtain rfl := (Except.ok.inj h).symm
  exact ⟨rfl, rfl, rfl, rfl, rfl, Nat.lt_of_not_le hnk, hS, rfl, rfl, rfl⟩

theorem solveOLS_length {X : List (List JsNum)} {Y : List JsNum} {B : List JsNum}
    (h : solveOLS X Y = some B) : B.length = (X.headD []).length := by
  simp only [solveOLS] at h
  cases hg : gjInverse (X.headD []).length
      (matMul X.length (transposeF (matOfLists X)) (matOfLists X)) with
  | none => rw [hg] at h; exact Option.noConfusion h
  | some M =>
      rw [hg] at h
      simp only [Option.some.injEq] at h
      subst h
      simp

theorem sq_sum_nonneg (l : List ℚ) : 0 ≤ (l.map (fun x => x ^ 2)).sum := by
  refine List.sum_nonneg ?_
  intro x hx
  simp only [List.mem_map] at hx
  obtain ⟨q, _, rfl⟩ := hx
  positivity

theorem sq_sum_eq_zero_iff (l : List ℚ) :
    (l.map (fun x => x ^ 2)).sum = 0 ↔ ∀ x ∈ l, x = 0 := by
  induction l with
  | nil => simp
  | cons a as ih =>
      simp only [List.map_cons, List.sum_cons, List.mem_cons]
      constructor
      · intro h
        have ha : a ^ 2 = 0 ∧ ((as.map (fun x => x ^ 2)).sum : ℚ) = 0 := by
          constructor <;> nlinarith [sq_nonneg a, sq_sum_nonneg as]
        refine fun x hx => ?_
        rcases hx with rfl | hx
        · exact pow_eq_zero_iff (by norm_num) |>.1 ha.1
        · exact (ih.1 ha.2) x hx
      · intro h
        rw [(h a (Or.inl rfl))]
        simp only [ne_eq, OfNat.ofNat_ne_zero, not_false_eq_true, zero_pow, zero_add]
        exact ih.2 fun x hx => h x (Or.inr hx)

theorem isVal_jsq (a : JsNum) (ha : a.isVal = true) : (jsq a).isVal = true :=
  isVal_jmul a a ha ha

theorem predsOf_val (clean : List Row) (cf : List VariableConfig)
    (X : List (List JsNum)) (Y : List JsNum) (B : List JsNum)
    (hX : ∀ row ∈ X, ∀ x ∈ row, x.isVal = true)
    (hXB : ∀ row ∈ X, row.length ≤ B.length)
    (hY : ∀ y ∈ Y, y.isVal = true)
    (hB : ∀ b ∈ B, b.isVal = true)
    (hXY : X.length ≤ Y.length) :
    ∀ p ∈ predsOf clean cf X Y B, p.actual.isVal = true ∧ p.residual.isVal = true := by
  intro p hp
  simp only [predsOf, List.mem_map, List.mem_range] at hp
  obtain ⟨i, hi, rfl⟩ := hp
  have hxr : X.getD i [] ∈ X := by
    rw [List.getD_eq_getElem X [] hi]
    exact List.getElem_mem hi
  have hact : (Y.getD i .nan).isVal = true := by
    rw [List.getD_eq_getElem Y .nan (by omega)]
    exact hY _ (List.getElem_mem (by omega))
  have hpred : (jsumL ((List.range (X.getD i []).length).map fun j =>
      jmul ((X.getD i []).getD j .nan) (B.getD j .nan))).isVal = true := by
    rw [jsumL_val]
    · simp [JsNum.isVal]
    · intro x hx
      simp only [List.mem_map, List.mem_range] at hx
      obtain ⟨j, hj, rfl⟩ := hx
      refine isVal_jmul _ _ ?_ ?_
      · rw [List.getD_eq_getElem (X.getD i []) .nan hj]
        exact hX _ hxr _ (List.getElem_mem hj)
      · have hjB : j < B.length := lt_of_lt_of_le hj (hXB _ hxr)
        rw [List.getD_eq_getElem B .nan hjB]
        exact hB _ (List.getElem_mem hjB)
  exact ⟨hact, isVal_jsub _ _ hact hpred⟩

/-- C8 (amended): when the deterministic core succeeds with more than one
    parameter, every design-matrix entry and every transformed target value
    is a finite number, and `SST` is nonzero (the transformed target is not
    constant), then the reported adjusted `R²` is at most the reported
    `R²`; `R²` equals `1` exactly when every reported residual is
    zero, and is strictly below `1` otherwise.  The restriction is real: on
    a constant target (`dataC8`) every residual is zero yet `SST = 0` makes
    `R² = NaN`, which the counterexample theorem records. -/
theorem claim_C8 (mlog : Bool → ℚ → ℚ) (msqrt : ℚ → ℚ)
    (data : List Row) (targetVar : String) (fv : List VariableConfig)
    (tlog tplus : Bool) (res : PrCore)
    (h : prCore mlog msqrt data targetVar fv tlog tplus = .ok res)
    (hkgt : 1 < res.kParams)
    (hXval : ∀ row ∈ res.xMatrix, ∀ x ∈ row, x.isVal = true)
    (hYval : ∀ y ∈ res.yVec, y.isVal = true)
    (hsstne : sstOf (jmean res.yVec) res.predictions ≠ .val 0) :
    jleB res.adjustedR2 res.r2 = true ∧
    (res.r2 = .val 1 ↔ ∀ p ∈ res.predictions, p.residual = .val 0) ∧
    ((¬ ∀ p ∈ res.predictions, p.residual = .val 0) →
      jltB res.r2 (.val 1) = true) := by
  obtain ⟨hcl, hXm, hYm, hnE, hkE, hnk, hsol, hpredE, hr2E, hadjE⟩ :=
    prCore_ok_fields mlog msqrt data targetVar fv tlog tplus res h
  have hYlen : res.yVec.length = res.clean.length := by rw [hYm]; simp [yOf]
  have hXlenY : res.xMatrix.length = res.yVec.length := by
    rw [hXm, hYm]; simp [xMatrixOf, yOf]
  have hrowlen : ∀ row ∈ res.xMatrix,
      row.length = (featureNamesOf fv res.clean).length := by
    intro row hrow
    rw [hXm] at hrow
    simp only [xMatrixOf, List.mem_map] at hrow
    obtain ⟨r, hr, rfl⟩ := hrow
    exact xRowOf_length mlog fv res.clean r
  have hn2 : 2 < res.nObs := by omega
  have hXpos : 0 < res.xMatrix.length := by
    rw [hXlenY, ← hnE]; omega
  have hhead : (res.xMatrix.headD []).length = (featureNamesOf fv res.clean).length := by
    cases hX : res.xMatrix with
    | nil => rw [hX] at hXpos; exact absurd hXpos (by simp)
    | cons hd tl =>
        have : hd ∈ res.xMatrix := by rw [hX]; exact List.mem_cons_self hd tl
        simpa using hrowlen hd this
  have hrows : ∀ row ∈ res.xMatrix,
      row.length = (res.xMatrix.headD []).length ∧ ∀ x ∈ row, x.isVal = true := by
    intro row hrow
    exact ⟨by rw [hhead]; exact hrowlen row hrow, hXval row hrow⟩
  have hBval : ∀ b ∈ res.beta, b.isVal = true :=
    solveOLS_val hrows hYval (le_of_eq hXlenY) hsol
  have hBlen : res.beta.length = (res.xMatrix.headD []).length := solveOLS_length hsol
  have hXB : ∀ row ∈ res.xMatrix, row.length ≤ res.beta.length := by
    intro row hrow
    rw [hBlen, hhead]
    exact le_of_eq (hrowlen row hrow)
  have hPval : ∀ p ∈ res.predictions,
      p.actual.isVal = true ∧ p.residual.isVal = true := by
    rw [hpredE]
    exact predsOf_val _ _ _ _ _ hXval hXB hYval hBval (le_of_eq hXlenY)
  -- the mean of the target is a finite number
  have hYlen0 : ((res.yVec.length : ℚ)) ≠ 0 := by
    have : res.nObs ≤ res.yVec.length := le_of_eq hnE
    exact Nat.cast_ne_zero.2 (by omega)
  have hsumY : jsumL res.yVec = .val ((res.yVec.map JsNum.toQ).sum) :=
    jsumL_val _ hYval
  have hmean : jmean res.yVec =
      .val ((res.yVec.map JsNum.toQ).sum / (res.yVec.length : ℚ)) := by
    rw [jmean, hsumY, jdiv_val _ _ hYlen0]
  -- SSE and SST as rational sums of squares
  have hsseE : sseOf res.predictions =
      .val (((res.predictions.map fun p => p.residual.toQ).map fun x => x ^ 2).sum) := by
    rw [sseOf, jsumL_val]
    · rw [List.map_map, List.map_map]
      have hmapeq : List.map (JsNum.toQ ∘ fun p => jsq p.residual) res.predictions =
          List.map ((fun x => x ^ 2) ∘ fun p => p.residual.toQ) res.predictions := by
        refine List.map_congr_left fun p hp => ?_
        obtain ⟨q, hq⟩ := (isVal_iff _).1 (hPval p hp).2
        simp [Function.comp, hq, jsq, jmul, JsNum.toQ, sq]
      rw [hmapeq]
    · intro x hx
      simp only [List.mem_map] at hx
      obtain ⟨p, hp, rfl⟩ := hx
      exact isVal_jsq _ (hPval p hp).2
  have hsstE : sstOf (jmean res.yVec) res.predictions =
      .val (((res.predictions.map fun p =>
        p.actual.toQ - (res.yVec.map JsNum.toQ).sum / (res.yVec.length : ℚ)).map
          fun x => x ^ 2).sum) := by
    rw [sstOf, jsumL_val]
    · rw [List.map_map, List.map_map]
      have hmapeq2 : List.map (JsNum.toQ ∘ fun p => jsq (jsub p.actual (jmean res.yVec)))
            res.predictions =
          List.map ((fun x => x ^ 2) ∘ fun p =>
            p.actual.toQ - (List.map JsNum.toQ res.yVec).sum / (res.yVec.length : ℚ))
            res.predictions := by
        refine List.map_congr_left fun p hp => ?_
        obtain ⟨q, hq⟩ := (isVal_iff _).1 (hPval p hp).1
        simp [Function.comp, hq, hmean, jsq, jmul, jsub, jadd, jneg, JsNum.toQ, sq,
          sub_eq_add_neg]
      rw [hmapeq2]
    · intro x hx
      simp only [List.mem_map] at hx
      obtain ⟨p, hp, rfl⟩ := hx
      refine isVal_jsq _ (isVal_jsub _ _ (hPval p hp).1 ?_)
      rw [hmean]
      simp [JsNum.isVal]
  set sseQ := ((res.predictions.map fun p => p.residual.toQ).map fun x => x ^ 2).sum
    with hsseQdef
  set sstQ := ((res.predictions.map fun p =>
      p.actual.toQ - (res.yVec.map JsNum.toQ).sum / (res.yVec.length : ℚ)).map
        fun x => x ^ 2).sum with hsstQdef
  have hsse0 : 0 ≤ sseQ := by rw [hsseQdef]; exact sq_sum_nonneg _
  have hsst0 : 0 ≤ sstQ := by rw [hsstQdef]; exact sq_sum_nonneg _
  have hsstne2 : sstQ ≠ 0 := fun h0 => hsstne (by rw [hsstE, h0])
  have hsstpos : 0 < sstQ := lt_of_le_of_ne hsst0 (Ne.symm hsstne2)
  have hr2v : res.r2 = .val (1 - sseQ / sstQ) := by
    rw [hr2E, hsseE, hsstE, jdiv_val _ _ hsstne2, jsub_val]
  have hk2 : 2 ≤ res.kParams := hkgt
  have hkq : (2 : ℚ) ≤ (res.kParams : ℚ) := by exact_mod_cast hk2
  have hnkq : (res.kParams : ℚ) < (res.nObs : ℚ) := by exact_mod_cast hnk
  have hdpos : 0 < (res.nObs : ℚ) - (res.kParams : ℚ) := by linarith
  have hdne : ((res.nObs : ℚ) - (res.kParams : ℚ)) ≠ 0 := ne_of_gt hdpos
  have hadjv : res.adjustedR2 = .val (1 - (1 - (1 - sseQ / sstQ)) *
      ((res.nObs : ℚ) - 1) / ((res.nObs : ℚ) - (res.kParams : ℚ))) := by
    rw [hadjE, hr2v, jsub_val, jmul_val, jdiv_val _ _ hdne, jsub_val]
  have hS0 : 0 ≤ sseQ / sstQ := div_nonneg hsse0 hsst0
  have hresid : (∀ p ∈ res.predictions, p.residual = .val 0) ↔ sseQ = 0 := by
    rw [hsseQdef, sq_sum_eq_zero_iff]
    constructor
    · intro hall x hx
      simp only [List.mem_map] at hx
      obtain ⟨p, hp, rfl⟩ := hx
      rw [hall p hp]
      rfl
    · intro hall p hp
      have hz := hall p.residual.toQ (List.mem_map.2 ⟨p, hp, rfl⟩)
      have hv := (hPval p hp).2
      rw [isVal_toQ _ hv, hz]
  have hchain : (1 - sseQ / sstQ = 1) ↔ sseQ = 0 := by
    constructor
    · intro h1
      have hz : sseQ / sstQ = 0 := by linarith
      exact (div_eq_zero_iff.1 hz).resolve_right hsstne2
    · intro h0
      rw [h0]
      simp
  refine ⟨?_, ?_, ?_⟩
  · rw [hadjv, hr2v, jleB_val]
    refine decide_eq_true ?_
    have hmul : (sseQ / sstQ) * ((res.nObs : ℚ) - (res.kParams : ℚ)) ≤
        (sseQ / sstQ) * ((res.nObs : ℚ) - 1) := by nlinarith
    have hup : sseQ / sstQ ≤
        (sseQ / sstQ) * ((res.nObs : ℚ) - 1) / ((res.nObs : ℚ) - (res.kParams : ℚ)) := by
      rw [le_div_iff₀ hdpos]
      exact hmul
    have hsimp : (1 - (1 - sseQ / sstQ)) * ((res.nObs : ℚ) - 1) /
        ((res.nObs : ℚ) - (res.kParams : ℚ)) =
        (sseQ / sstQ) * ((res.nObs : ℚ) - 1) / ((res.nObs : ℚ) - (res.kParams : ℚ)) := by
      ring
    rw [hsimp]
    linarith
  · rw [hr2v]
    constructor
    · intro hv1
      exact hresid.2 (hchain.1 (JsNum.val.inj hv1))
    · intro hall
      rw [hchain.2 (hresid.1 hall)]
  · intro hne
    have hsne : sseQ ≠ 0 := fun h0 => hne (hresid.2 h0)
    have hspos : 0 < sseQ := lt_of_le_of_ne hsse0 (Ne.symm hsne)
    have hdivpos : 0 < sseQ / sstQ := div_pos hspos hsstpos
    rw [hr2v, jltB_val]
    exact decide_eq_true (by linarith)


/-- C8, counterexample to the claim as stated: on the constant target
    `dataC8` the regression succeeds with `k = 2 > 1` parameters and all
    residuals zero, yet `R² = 1 - 0/0 = NaN` is not `1`, the comparison
    `adjustedR² ≤ R²` is false (`NaN` compares false), and
    `R² < 1` is false as well. -/
theorem claim_C8_counterexample :
    (performRegression mlog0 msqrt0 rngZ dataC8 "y" fvX false false).map
        (fun res => (res.coefficients.length,
          res.predictions.map (fun p => p.residual), res.r2,
          jleB res.adjustedR2 res.r2, jltB res.r2 (.val 1))) =
      .ok (2, [.val 0, .val 0, .val 0], JsNum.nan, false, false) := by
  with_unfolding_all decide

theorem claim_C8_witness :
    jleB resC8.adjustedR2 resC8.r2 = true ∧
    (resC8.r2 = .val 1 ↔ ∀ p ∈ resC8.predictions, p.residual = .val 0) := by
  have hfull := claim_C8 mlog0 msqrt0 dataLin "y" fvX false false resC8
    (by with_unfolding_all rfl) (by with_unfolding_all decide)
    (by with_unfolding_all decide) (by with_unfolding_all decide)
    (by with_unfolding_all decide)
  exact ⟨hfull.1, hfull.2.1⟩
